import Mathlib

/-!
Verification of the MeteoSix → InfluxDB ETL (`meteosix_to_influx.py`).

The Python source is shallowly embedded: JSON values decoded by `r.json()`
become the inductive `JVal`; Python dictionaries become ordered association
lists (insertion order preserved, keys unique in every dict the program
builds); Python's truthiness, `or`, `dict.get`, `float()` and `str.strip()/
.lower()` are modelled by explicit functions; code that can raise returns
`Except String α`.  Network collaborators (HTTP responses) are passed in as
oracle functions, as the design isolates them behind narrow interfaces.
-/

/-- JSON-like values as decoded by Python's `json` module.  Objects keep
insertion order, mirroring CPython dicts; numbers are modelled as rationals
(Python ints and floats — the exact floating representation is immaterial to
every property proved here). -/
inductive JVal where
  | null : JVal
  | bool : Bool → JVal
  | num : ℚ → JVal
  | str : String → JVal
  | arr : List JVal → JVal
  | obj : List (String × JVal) → JVal

namespace JVal

mutual

/-- Structural (boolean) equality on `JVal`. -/
def beqJV : JVal → JVal → Bool
  | .null, .null => true
  | .bool a, .bool b => a == b
  | .num a, .num b => a == b
  | .str a, .str b => a == b
  | .arr xs, .arr ys => beqJL xs ys
  | .obj xs, .obj ys => beqJP xs ys
  | _, _ => false

/-- Structural equality on lists of `JVal`. -/
def beqJL : List JVal → List JVal → Bool
  | [], [] => true
  | x :: xs, y :: ys => beqJV x y && beqJL xs ys
  | _, _ => false

/-- Structural equality on association lists of `JVal`. -/
def beqJP : List (String × JVal) → List (String × JVal) → Bool
  | [], [] => true
  | x :: xs, y :: ys => x.1 == y.1 && beqJV x.2 y.2 && beqJP xs ys
  | _, _ => false

end

mutual

theorem beqJV_iff : ∀ a b, beqJV a b = true ↔ a = b
  | .null, b => by cases b <;> simp [beqJV]
  | .bool x, b => by cases b <;> simp [beqJV]
  | .num x, b => by cases b <;> simp [beqJV]
  | .str x, b => by cases b <;> simp [beqJV]
  | .arr xs, b => by
      cases b <;> simp [beqJV]
      exact beqJL_iff xs _
  | .obj xs, b => by
      cases b <;> simp [beqJV]
      exact beqJP_iff xs _

theorem beqJL_iff : ∀ xs ys, beqJL xs ys = true ↔ xs = ys
  | [], ys => by cases ys <;> simp [beqJL]
  | x :: xs, ys => by
      cases ys with
      | nil => simp [beqJL]
      | cons y ys =>
        simp only [beqJL, Bool.and_eq_true, List.cons.injEq]
        exact and_congr (beqJV_iff x y) (beqJL_iff xs ys)

theorem beqJP_iff : ∀ xs ys, beqJP xs ys = true ↔ xs = ys
  | [], ys => by cases ys <;> simp [beqJP]
  | x :: xs, ys => by
      cases ys with
      | nil => simp [beqJP]
      | cons y ys =>
        simp only [beqJP, Bool.and_eq_true, List.cons.injEq, beq_iff_eq]
        rw [beqJV_iff x.2 y.2, beqJP_iff xs ys, and_assoc,
          Prod.ext_iff, and_assoc]

end

instance : DecidableEq JVal := fun a b =>
  decidable_of_iff (beqJV a b = true) (beqJV_iff a b)

/-- Python truthiness (`bool(x)`) for JSON-decoded values: `None`, `False`,
`0`, `""`, `[]` and `{}` are falsy, everything else truthy. -/
def jTruthy : JVal → Bool
  | .null => false
  | .bool b => b
  | .num q => decide (q ≠ 0)
  | .str s => decide (s ≠ "")
  | .arr xs => !xs.isEmpty
  | .obj kvs => !kvs.isEmpty

/-- Python's `a or b`: `a` when truthy, else `b`. -/
def jOr (a b : JVal) : JVal := if jTruthy a then a else b

@[simp] theorem jTruthy_null : jTruthy .null = false := rfl

@[simp] theorem jTruthy_bool (b : Bool) : jTruthy (.bool b) = b := rfl

@[simp] theorem jTruthy_num (q : ℚ) : jTruthy (.num q) = decide (q ≠ 0) := rfl

@[simp] theorem jTruthy_str (s : String) :
    jTruthy (.str s) = decide (s ≠ "") := rfl

@[simp] theorem jTruthy_arr (xs : List JVal) :
    jTruthy (.arr xs) = !xs.isEmpty := rfl

@[simp] theorem jTruthy_obj (kvs : List (String × JVal)) :
    jTruthy (.obj kvs) = !kvs.isEmpty := rfl

end JVal

open JVal

/-- Lookup in a Python dict modelled as an ordered association list
(keys are unique in every dict the program constructs). -/
def jLookup (kvs : List (String × JVal)) (k : String) : Option JVal :=
  (kvs.find? (fun kv => kv.1 == k)).map (fun kv => kv.2)

/-- `jLookup` with Python's `dict.get` default of `None`. -/
def jLookupD (kvs : List (String × JVal)) (k : String) : JVal :=
  (jLookup kvs k).getD .null

/-- Python `d[k] = v` on a dict: overwrite in place if the key exists
(keeping its position, as CPython does), else append. -/
def dictSet (kvs : List (String × JVal)) (k : String) (v : JVal) :
    List (String × JVal) :=
  if kvs.any (fun kv => kv.1 == k) then
    kvs.map (fun kv => if kv.1 == k then (k, v) else kv)
  else kvs ++ [(k, v)]

/-- Python `x.get(key)` on a JSON value: returns the entry (or `None`) when
`x` is a dict, raises `AttributeError` otherwise. -/
def jGet : JVal → String → Except String JVal
  | .obj kvs, k => .ok (jLookupD kvs k)
  | _, _ => .error "AttributeError"

/-- Python `isinstance(data, dict) and "exception" in data`. -/
def hasExceptionKey : JVal → Bool
  | .obj kvs => kvs.any (fun kv => kv.1 == "exception")
  | _ => false

/-- Python iteration `for x in v` as the program uses it.  Only lists iterate
without failing: a truthy non-list here (`str`, nonempty `dict`, number) would
in Python either be non-iterable (`TypeError`) or yield strings/keys on which
the loop body's first `.get` raises `AttributeError`, so modelling iteration
of any truthy non-list as an immediate error is faithful for this program. -/
def asList : JVal → Except String (List JVal)
  | .arr xs => .ok xs
  | _ => .error "TypeError"

/-- A value that must be a Python `str` (e.g. before `.strip()`); anything
else raises. -/
def asStr : JVal → Except String String
  | .str s => .ok s
  | _ => .error "TypeError"

/-- Python `str.strip()`: drop whitespace from both ends. -/
def pyStrip (s : String) : String :=
  String.mk
    ((s.data.dropWhile Char.isWhitespace).reverse.dropWhile
      Char.isWhitespace).reverse

/-- Python `str.lower()` (ASCII model; the non-ASCII letters this repo feeds
it are already lowercase). -/
def pyLower (s : String) : String := String.mk (s.data.map Char.toLower)

/-- `normalize_query` from the source: `q.strip().lower()`. -/
def normalize_query (q : String) : String := pyLower (pyStrip q)

/-- Truthiness of an environment variable (`Option String`): unset or empty
is falsy. -/
def envTruthy : Option String → Bool
  | none => false
  | some s => decide (s ≠ "")

/-- One decimal digit. -/
def digitVal (c : Char) : Option ℕ :=
  if c.isDigit then some (c.toNat - '0'.toNat) else none

/-- Parse a nonempty digit run into (value, count). -/
def parseDigits : List Char → Option (ℕ × ℕ)
  | [] => none
  | cs =>
    let go := cs.foldl (fun acc c =>
      match acc, digitVal c with
      | some (v, n), some d => some (v * 10 + d, n + 1)
      | _, _ => none) (some (0, 0))
    go

/-- Mantissa of a decimal literal: `digits`, `digits.digits`, `.digits` or
`digits.` — returns the value as a rational. -/
def parseMantissa (cs : List Char) : Option ℚ :=
  match cs.span (fun c => c.isDigit) with
  | (intPart, rest) =>
    match rest with
    | [] => (parseDigits intPart).map (fun p => (p.1 : ℚ))
    | '.' :: fracPart =>
      if fracPart.isEmpty then
        (parseDigits intPart).map (fun p => (p.1 : ℚ))
      else
        match parseDigits fracPart with
        | none => none
        | some (fv, fn) =>
          let ip : ℚ := ((parseDigits intPart).map (fun p => (p.1 : ℚ))).getD 0
          if intPart.isEmpty ∧ fracPart.isEmpty then none
          else some (ip + (fv : ℚ) / ((10 : ℚ) ^ fn))
    | _ => none

/-- Model of Python `float(s)` on strings: surrounding whitespace stripped,
optional sign, decimal mantissa, optional exponent.  (`inf`/`nan` are not
modelled; no claim depends on them.) -/
def parseFloat (s : String) : Option ℚ :=
  let cs := (pyStrip s).data
  let signed : List Char → Option (Bool × List Char)
    | '+' :: rest => some (false, rest)
    | '-' :: rest => some (true, rest)
    | rest => some (false, rest)
  match signed cs with
  | none => none
  | some (neg, body) =>
    let expSplit := body.span (fun c => c ≠ 'e' ∧ c ≠ 'E')
    let mant := parseMantissa expSplit.1
    match mant with
    | none => none
    | some m =>
      let withExp : Option ℚ :=
        match expSplit.2 with
        | [] => some m
        | _ :: exp =>
          match signed exp with
          | some (eneg, eds) =>
            match parseDigits eds with
            | some (ev, _) =>
              some (if eneg then m / ((10 : ℚ) ^ ev) else m * ((10 : ℚ) ^ ev))
            | none => none
          | none => none
      withExp.map (fun q => if neg then -q else q)

/-- Model of Python `float(v)` on JSON-decoded values: numbers pass through,
booleans coerce (`float(True) = 1.0`), strings parse or raise `ValueError`,
everything else raises `TypeError`. -/
def pyFloat : JVal → Except String ℚ
  | .num q => .ok q
  | .bool b => .ok (if b then 1 else 0)
  | .str s =>
    match parseFloat s with
    | some q => .ok q
    | none => .error "ValueError"
  | _ => .error "TypeError"

/-- Model of Python `str(v)`: identity on strings (the only case any claim
exercises — it is reached for tag coercion and for unparseable scalar
values); other cases get a deterministic stand-in rendering for Python's
`repr`-style output. -/
def pyStr : JVal → String
  | .null => "None"
  | .bool true => "True"
  | .bool false => "False"
  | .num q => toString q
  | .str s => s
  | .arr _ => "(list)"
  | .obj _ => "(dict)"

/-- Provider batch limit (`MAX_IDS_PER_REQUEST = 20`). -/
def MAX_IDS_PER_REQUEST : ℕ := 20

/-- `DEFAULT_VARIABLES` from the source. -/
def DEFAULT_VARIABLES : List String :=
  ["temperature", "relative_humidity", "air_pressure_at_sea_level",
   "precipitation_amount", "cloud_area_fraction", "wind",
   "significative_wave_height", "relative_peak_period",
   "mean_wave_direction", "sea_water_temperature"]

/-- Fuel-driven loop of Python `range(start, stop, step)` for a positive
step; structural recursion so that concrete instances compute in the
kernel. -/
def pyRangeF : ℕ → ℕ → ℕ → ℕ → List ℕ
  | 0, _, _, _ => []
  | f + 1, start, stop, step =>
    if 0 < step ∧ start < stop then start :: pyRangeF f (start + step) stop step
    else []

/-- Python `range(start, stop, step)` for a positive step (`stop - start`
units of fuel always suffice, as each iteration advances by at least 1). -/
def pyRange (start stop step : ℕ) : List ℕ :=
  pyRangeF (stop - start) start stop step

theorem pyRangeF_congr {stop step : ℕ} :
    ∀ (f1 f2 start : ℕ), stop - start ≤ f1 → stop - start ≤ f2 →
      pyRangeF f1 start stop step = pyRangeF f2 start stop step
  | 0, f2, start => by
    intro h1 _
    cases f2 with
    | zero => rfl
    | succ f =>
      simp only [pyRangeF]
      rw [if_neg (by omega)]
  | f1 + 1, f2, start => by
    intro h1 h2
    cases f2 with
    | zero =>
      simp only [pyRangeF]
      rw [if_neg (by omega)]
    | succ f =>
      simp only [pyRangeF]
      by_cases hc : 0 < step ∧ start < stop
      · rw [if_pos hc, if_pos hc,
          pyRangeF_congr f1 f (start + step) (by omega) (by omega)]
      · rw [if_neg hc, if_neg hc]

/-- `chunked` from the source:
`[xs[i:i+n] for i in range(0, len(xs), n)]`. -/
def chunked (xs : List String) (n : ℕ) : List (List String) :=
  (pyRange 0 xs.length n).map (fun i => (xs.drop i).take n)

/-- JSON string serialization as `json.dumps` renders it with
`ensure_ascii=False`: quoted, with backslash escapes for the quote, the
backslash and control characters; all other characters kept as-is. -/
def serializeStr (s : String) : String :=
  let esc : Char → String := fun c =>
    if c = '"' then "\\\""
    else if c = '\\' then "\\\\"
    else if c = '\n' then "\\n"
    else if c = '\t' then "\\t"
    else if c = '\r' then "\\r"
    else if c.toNat < 32 then
      "\\u00" ++ String.mk [Nat.digitChar (c.toNat / 16), Nat.digitChar (c.toNat % 16)]
    else String.mk [c]
  "\"" ++ String.join (s.data.map esc) ++ "\""

/-- Rendering of a JSON number as `json.dumps` would (`12` for ints; for
non-integral floats a deterministic stand-in for Python's shortest-repr —
the exact digits are immaterial to every claim, which only need the
serializer to be a function of the value). -/
def numRepr (q : ℚ) : String :=
  if q.den = 1 then toString q.num
  else toString q.num ++ "e" ++ toString q.den

/-- Sort object entries by key, as `json.dumps(..., sort_keys=True)` does
(Python's stable `sorted` on the keys). -/
def sortPairs (l : List (String × String)) : List (String × String) :=
  l.insertionSort (fun a b => a.1 ≤ b.1)

mutual

/-- Canonical serialization of a JSON value mirroring
`json.dumps(obj, sort_keys=True, ensure_ascii=False)`: default separators
`", "` and `": "`, object keys sorted.  (Entries are rendered first and the
rendered pairs sorted by key — extensionally the same as sorting the dict
items first, since rendering is per-entry and keeps keys.) -/
def serialize : JVal → String
  | .null => "null"
  | .bool true => "true"
  | .bool false => "false"
  | .num q => numRepr q
  | .str s => serializeStr s
  | .arr xs => "[" ++ String.intercalate ", " (serializeList xs) ++ "]"
  | .obj kvs =>
    "\x7b" ++
      String.intercalate ", "
        ((sortPairs (serializePairs kvs)).map
          (fun p => serializeStr p.1 ++ ": " ++ p.2)) ++ "\x7d"

/-- Serialize each element of a JSON array. -/
def serializeList : List JVal → List String
  | [] => []
  | v :: vs => serialize v :: serializeList vs

/-- Render each object entry to `(key, serialized value)`. -/
def serializePairs : List (String × JVal) → List (String × String)
  | [] => []
  | kv :: kvs => (kv.1, serialize kv.2) :: serializePairs kvs

end

/-- UTF-8 encoding of one character (`.encode("utf-8")`). -/
def utf8Bytes (c : Char) : List ℕ :=
  let n := c.toNat
  if n < 128 then [n]
  else if n < 2048 then [192 + n / 64, 128 + n % 64]
  else if n < 65536 then
    [224 + n / 4096, 128 + (n / 64) % 64, 128 + n % 64]
  else
    [240 + n / 262144, 128 + (n / 4096) % 64, 128 + (n / 64) % 64, 128 + n % 64]

/-- UTF-8 bytes of a string. -/
def strBytes (s : String) : List ℕ := (s.data.map utf8Bytes).flatten

/-! SHA-256 (FIPS 180-4), computed over lists of byte values as naturals,
with 32-bit words as naturals reduced mod `2 ^ 32`.  This models
`hashlib.sha256(raw).hexdigest()`. -/

/-- Truncate to a 32-bit word. -/
def w32 (x : ℕ) : ℕ := x % 4294967296

/-- Right rotation of a 32-bit word. -/
def rotr (n x : ℕ) : ℕ := w32 ((x >>> n) ||| (x <<< (32 - n)))

/-- Bitwise complement of a 32-bit word. -/
def wnot (x : ℕ) : ℕ := x ^^^ 4294967295

/-- SHA-256 `Ch`. -/
def shaCh (x y z : ℕ) : ℕ := (x &&& y) ^^^ (wnot x &&& z)

/-- SHA-256 `Maj`. -/
def shaMaj (x y z : ℕ) : ℕ := (x &&& y) ^^^ (x &&& z) ^^^ (y &&& z)

/-- SHA-256 `Σ₀`. -/
def bigSigma0 (x : ℕ) : ℕ := rotr 2 x ^^^ rotr 13 x ^^^ rotr 22 x

/-- SHA-256 `Σ₁`. -/
def bigSigma1 (x : ℕ) : ℕ := rotr 6 x ^^^ rotr 11 x ^^^ rotr 25 x

/-- SHA-256 `σ₀`. -/
def smallSigma0 (x : ℕ) : ℕ := rotr 7 x ^^^ rotr 18 x ^^^ (x >>> 3)

/-- SHA-256 `σ₁`. -/
def smallSigma1 (x : ℕ) : ℕ := rotr 17 x ^^^ rotr 19 x ^^^ (x >>> 10)

/-- The 64 SHA-256 round constants. -/
def shaK : List ℕ :=
  [1116352408, 1899447441, 3049323471, 3921009573,
   961987163, 1508970993, 2453635748, 2870763221,
   3624381080, 310598401, 607225278, 1426881987,
   1925078388, 2162078206, 2614888103, 3248222580,
   3835390401, 4022224774, 264347078, 604807628,
   770255983, 1249150122, 1555081692, 1996064986,
   2554220882, 2821834349, 2952996808, 3210313671,
   3336571891, 3584528711, 113926993, 338241895,
   666307205, 773529912, 1294757372, 1396182291,
   1695183700, 1986661051, 2177026350, 2456956037,
   2730485921, 2820302411, 3259730800, 3345764771,
   3516065817, 3600352804, 4094571909, 275423344,
   430227734, 506948616, 659060556, 883997877,
   958139571, 1322822218, 1537002063, 1747873779,
   1955562222, 2024104815, 2227730452, 2361852424,
   2428436474, 2756734187, 3204031479, 3329325298]

/-- SHA-256 hash state: eight 32-bit words. -/
structure Sha256State where
  a : ℕ
  b : ℕ
  c : ℕ
  d : ℕ
  e : ℕ
  f : ℕ
  g : ℕ
  h : ℕ

/-- SHA-256 initial hash value. -/
def shaInit : Sha256State :=
  ⟨1779033703, 3144134277, 1013904242, 2773480762,
   1359893119, 2600822924, 528734635, 1541459225⟩

/-- Message-schedule extension: given the most recent 16 words (newest
first), produce the next word. -/
def shaNextW (recent : List ℕ) : ℕ :=
  let at_ : ℕ → ℕ := fun i => recent.getD i 0
  w32 (smallSigma1 (at_ 1) + at_ 6 + smallSigma0 (at_ 14) + at_ 15)

/-- Extend a 16-word block to the full 64-word schedule (returned oldest
first). -/
def shaSchedule (block : List ℕ) : List ℕ :=
  let step := fun (acc : List ℕ) (_ : ℕ) => shaNextW acc :: acc
  ((List.range 48).foldl step block.reverse).reverse

/-- One SHA-256 round. -/
def shaRound (st : Sha256State) (kw : ℕ × ℕ) : Sha256State :=
  let t1 := w32 (st.h + bigSigma1 st.e + shaCh st.e st.f st.g + kw.1 + kw.2)
  let t2 := w32 (bigSigma0 st.a + shaMaj st.a st.b st.c)
  ⟨w32 (t1 + t2), st.a, st.b, st.c, w32 (st.d + t1), st.e, st.f, st.g⟩

/-- Compress one 512-bit block (sixteen 32-bit words) into the state. -/
def shaCompress (st : Sha256State) (block : List ℕ) : Sha256State :=
  let ws := shaSchedule block
  let fin := (shaK.zip ws).foldl shaRound st
  ⟨w32 (st.a + fin.a), w32 (st.b + fin.b), w32 (st.c + fin.c),
   w32 (st.d + fin.d), w32 (st.e + fin.e), w32 (st.f + fin.f),
   w32 (st.g + fin.g), w32 (st.h + fin.h)⟩

/-- SHA-256 padding: append `0x80`, zero-fill to 56 mod 64, then the bit
length as eight big-endian bytes. -/
def shaPad (msg : List ℕ) : List ℕ :=
  let len := msg.length
  let zeros := (64 + 55 - len % 64) % 64
  msg ++ [128] ++ List.replicate zeros 0 ++ (List.range 8).map
    (fun i => ((len * 8) >>> (8 * (7 - i))) % 256)

/-- Fuel-driven splitting of a byte list into 64-byte chunks (structural,
so concrete digests compute in the kernel; one unit of fuel per block and
the initial fuel is the byte count, which always suffices). -/
def shaBlocksF : ℕ → List ℕ → List (List ℕ)
  | 0, _ => []
  | _, [] => []
  | f + 1, b :: bs => ((b :: bs).take 64) :: shaBlocksF f ((b :: bs).drop 64)

/-- Split a byte list into 64-byte chunks. -/
def shaBlocks (bs : List ℕ) : List (List ℕ) := shaBlocksF bs.length bs

/-- Pack 4 consecutive bytes (big-endian) into 32-bit words. -/
def bytesToWords : List ℕ → List ℕ
  | b0 :: b1 :: b2 :: b3 :: rest =>
    (b0 * 16777216 + b1 * 65536 + b2 * 256 + b3) :: bytesToWords rest
  | _ => []

/-- The SHA-256 state after absorbing a whole message. -/
def sha256Words (msg : List ℕ) : Sha256State :=
  ((shaBlocks (shaPad msg)).map bytesToWords).foldl shaCompress shaInit

/-- Lowercase hex digit. -/
def hexChar (n : ℕ) : Char :=
  if n < 10 then Char.ofNat ('0'.toNat + n) else Char.ofNat ('a'.toNat + n - 10)

/-- A 32-bit word as exactly eight lowercase hex characters. -/
def hexWord (w : ℕ) : String :=
  String.mk ((List.range 8).map (fun i => hexChar ((w >>> (4 * (7 - i))) % 16)))

/-- `hashlib.sha256(raw).hexdigest()`: 64 lowercase hex characters. -/
def sha256hex (msg : List ℕ) : String :=
  let st := sha256Words msg
  hexWord st.a ++ hexWord st.b ++ hexWord st.c ++ hexWord st.d ++
  hexWord st.e ++ hexWord st.f ++ hexWord st.g ++ hexWord st.h

/-- `stable_hash` from the source:
`sha256(json.dumps(obj, sort_keys=True, ensure_ascii=False).encode("utf-8")).hexdigest()`. -/
def stable_hash (obj : JVal) : String := sha256hex (strBytes (serialize obj))

/-! The transformer (`iter_timeseries_points`) and its collaborators. -/

/-- One output tuple `(ts, fields, tags)` of the transformer.  The timestamp
keeps the raw `timeInstant` string: `dtparser.isoparse` is modelled as
requiring a string and is otherwise kept inert, since no claim inspects the
parsed datetime. -/
structure SeriesPoint where
  ts : String
  fields : List (String × JVal)
  tags : List (String × JVal)
  deriving DecidableEq

/-- `dtparser.isoparse(ti)`: needs a string (else `TypeError`); the parsed
datetime is represented by the string itself. -/
def isoparse : JVal → Except String String
  | .str s => .ok s
  | _ => .error "TypeError"

/-- Field extraction for one hourly record, mirroring the loop body of
`iter_timeseries_points`: for the wind variable, `moduleValue` and
`directionValue` are floated independently (each unguarded `float(...)` can
raise); for any other variable, a present, non-empty `value` is floated,
falling back to `value_str = str(v)` on `ValueError`/`TypeError`; a truthy
`modelRun` is appended as `model_run`. -/
def hourlyFields (varName : JVal) (hv : JVal) : Except String (List (String × JVal)) := do
  let base ←
    if varName = .str "wind" then do
      let mv ← jGet hv "moduleValue"
      let dv ← jGet hv "directionValue"
      let f1 ← if mv ≠ .null then do
          let q ← pyFloat mv
          pure [("wind_module", JVal.num q)]
        else pure []
      let f2 ← if dv ≠ .null then do
          let q ← pyFloat dv
          pure [("wind_direction", JVal.num q)]
        else pure []
      pure (f1 ++ f2)
    else do
      let v ← jGet hv "value"
      if v ≠ .null ∧ v ≠ .str "" then
        match pyFloat v with
        | .ok q => pure [("value", JVal.num q)]
        | .error _ => pure [("value_str", JVal.str (pyStr v))]
      else pure []
  let mr ← jGet hv "modelRun"
  pure (base ++ (if jTruthy mr then [("model_run", mr)] else []))

/-- The `for hv in values` loop: records without a truthy `timeInstant` are
dropped; a record whose field map ends up empty produces no point. -/
def transformValues (varName : JVal) (tags : List (String × JVal)) :
    List JVal → Except String (List SeriesPoint)
  | [] => .ok []
  | hv :: rest => do
    let here ←
      (do
        let ti ← jGet hv "timeInstant"
        if ¬ jTruthy ti then pure []
        else do
          let ts ← isoparse ti
          let fields ← hourlyFields varName hv
          if fields.isEmpty then pure []
          else pure [SeriesPoint.mk ts fields tags])
    let more ← transformValues varName tags rest
    pure (here ++ more)

/-- The `for var in variables` loop: per-variable tag assembly then the
values loop. -/
def transformVariables (placeTags : List (String × JVal)) :
    List JVal → Except String (List SeriesPoint)
  | [] => .ok []
  | var :: rest => do
    let varName := jOr (← jGet var "name") (.str "")
    let model := jOr (← jGet var "model") (.str "")
    let grid := jOr (← jGet var "grid") (.str "")
    let units := jOr (← jGet var "units") (.str "")
    let tags := placeTags ++
      [("variable", varName), ("model", model), ("grid", grid), ("units", units)]
    let values ← asList (jOr (← jGet var "values") (.arr []))
    let here ← transformValues varName tags values
    let more ← transformVariables placeTags rest
    pure (here ++ more)

/-- The `for day in days` loop. -/
def transformDays (placeTags : List (String × JVal)) :
    List JVal → Except String (List SeriesPoint)
  | [] => .ok []
  | day :: rest => do
    let variableList ← asList (jOr (← jGet day "variables") (.arr []))
    let here ← transformVariables placeTags variableList
    let more ← transformDays placeTags rest
    pure (here ++ more)

/-- `iter_timeseries_points` from the source: one place's feature becomes a
list of `(ts, fields, tags)` tuples; a feature carrying a truthy `exception`
yields the empty list. -/
def iter_timeseries_points (feature : JVal) : Except String (List SeriesPoint) := do
  let props := jOr (← jGet feature "properties") (.obj [])
  if jTruthy (← jGet feature "exception") then pure []
  else do
    let place_id ← asStr (jOr (← jGet props "id") (.str ""))
    let place_name := jOr (← jGet props "name") (.str "")
    let municipality := jOr (← jGet props "municipality") (.str "")
    let province := jOr (← jGet props "province") (.str "")
    let place_type := jOr (← jGet props "type") (.str "")
    let placeTags : List (String × JVal) :=
      [("place_id", .str (pyStrip place_id)), ("place_name", place_name),
       ("municipality", municipality), ("province", province),
       ("type", place_type)]
    let days ← asList (jOr (← jGet props "days") (.arr []))
    transformDays placeTags days

/-! The writer adapter (`write_to_influx`). -/

/-- One point as handed to the InfluxDB client: measurement
`forecast_hourly`, second-precision timestamp, stringified tags, fields
as-is. -/
structure InfluxPoint where
  measurement : String
  time : String
  tags : List (String × String)
  fields : List (String × JVal)
  deriving DecidableEq

/-- The point-building loop body of `write_to_influx`:
`Point("forecast_hourly").time(ts, S)`, then `p.tag(k, str(v or ""))` per
tag, then `p.field(fk, fv)` per field. -/
def toInfluxPoint (p : SeriesPoint) : InfluxPoint :=
  ⟨"forecast_hourly", p.ts,
   p.tags.map (fun kv => (kv.1, pyStr (jOr kv.2 (.str "")))), p.fields⟩

/-- `write_to_influx` from the source, with the synchronous write calls to
the InfluxDB collaborator returned as a trace (second component): missing
`INFLUX_TOKEN`/`INFLUX_ORG`/`INFLUX_BUCKET` raise before any conversion; an
empty converted list performs no write call; the return value is
`len(influx_points)`. -/
def write_to_influx (token org bucket : Option String)
    (points : List SeriesPoint) :
    Except String (ℕ × List (List InfluxPoint)) :=
  if ¬ (envTruthy token ∧ envTruthy org ∧ envTruthy bucket) then
    .error "RuntimeError: missing Influx env vars"
  else
    let influx_points := points.map toInfluxPoint
    .ok (influx_points.length,
      if influx_points.isEmpty then [] else [influx_points])

/-! The forecast fetcher and the `run_etl` orchestration. -/

/-- `request_forecast` from the source.  `http` is the network collaborator:
given the batch of location ids and the variable names it returns the decoded
JSON body, or an error for an HTTP-level failure (`raise_for_status`,
timeout).  A missing `METEOSIX_API_KEY` raises before any request; a decoded
top-level dict carrying an `exception` key raises. -/
def request_forecast (http : List String → List String → Except String JVal)
    (apiKey : Option String) (location_ids : List String)
    (variableNames : List String) : Except String JVal := do
  if ¬ envTruthy apiKey then throw "RuntimeError: Falta METEOSIX_API_KEY"
  let data ← http location_ids variableNames
  if hasExceptionKey data then
    throw "RuntimeError: Error global getNumericForecastInfo"
  else pure data

/-- The per-feature loop of `run_etl`: features with a truthy `exception`
are counted and skipped; the rest are transformed and their points
concatenated. -/
def processFeatures : List JVal → Except String (List SeriesPoint × ℕ)
  | [] => .ok ([], 0)
  | f :: fs => do
    if jTruthy (← jGet f "exception") then
      let r ← processFeatures fs
      pure (r.1, r.2 + 1)
    else do
      let pts ← iter_timeseries_points f
      let r ← processFeatures fs
      pure (pts ++ r.1, r.2)

/-- Result of one iteration of the `run_etl` batch loop. -/
structure BatchResult where
  /-- The ledger (`state`) after the iteration. -/
  ledger : List (String × JVal)
  /-- Points written for this batch (`written`). -/
  written : ℕ
  /-- Whether the batch was transformed (false on digest skip). -/
  transformed : Bool
  /-- Ledger writes performed (`state[batch_key] = h` followed by
  `save_json`), as (batch key, digest) pairs. -/
  writes : List (String × String)
  deriving DecidableEq

/-- The body of the `for batch in chunked(...)` loop in `run_etl`: fetch,
digest, skip if the ledger already holds this digest for this batch key;
otherwise transform every non-exception feature, write, and record the new
digest in the ledger. -/
def processBatch (http : List String → List String → Except String JVal)
    (apiKey token org bucket : Option String)
    (variableNames : List String) (state : List (String × JVal))
    (batch : List String) : Except String BatchResult := do
  let data ← request_forecast http apiKey batch variableNames
  let batch_key := String.intercalate "," batch
  let h := stable_hash data
  if jLookupD state batch_key = .str h then
    pure ⟨state, 0, false, []⟩
  else do
    let features ← asList (jOr (← jGet data "features") (.arr []))
    let r ← processFeatures features
    let w ← write_to_influx token org bucket r.1
    pure ⟨dictSet state batch_key (.str h), w.1, true, [(batch_key, h)]⟩

/-- How a run ended: normally, or aborted by an uncaught exception. -/
inductive EtlOutcome where
  | completed : EtlOutcome
  | aborted : String → EtlOutcome
  deriving DecidableEq

/-- Observable result of a run: final ledger (the content of the state file,
which is saved after every processed batch), total points written, the trace
of ledger writes, and the outcome. -/
structure EtlRun where
  ledger : List (String × JVal)
  total : ℕ
  writes : List (String × String)
  outcome : EtlOutcome
  deriving DecidableEq

/-- The `run_etl` batch loop over an explicit batch list.  An exception in
`processBatch` propagates: the loop stops, later batches are not fetched,
and no further ledger write happens (the ledger keeps the value it had
before the failing batch). -/
def runBatches (http : List String → List String → Except String JVal)
    (apiKey token org bucket : Option String) (variableNames : List String)
    (state : List (String × JVal)) : List (List String) → EtlRun
  | [] => ⟨state, 0, [], .completed⟩
  | b :: rest =>
    match processBatch http apiKey token org bucket variableNames state b with
    | .error m => ⟨state, 0, [], .aborted m⟩
    | .ok r =>
      let rr := runBatches http apiKey token org bucket variableNames r.ledger rest
      ⟨rr.ledger, r.written + rr.total, r.writes ++ rr.writes, rr.outcome⟩

/-- `run_etl` from the source: `variables = variables or DEFAULT_VARIABLES`,
load the ledger, loop over `chunked(location_ids, MAX_IDS_PER_REQUEST)`. -/
def run_etl (http : List String → List String → Except String JVal)
    (apiKey token org bucket : Option String)
    (location_ids : List String) (variableNames : List String)
    (state : List (String × JVal)) : EtlRun :=
  let vars := if variableNames.isEmpty then DEFAULT_VARIABLES else variableNames
  runBatches http apiKey token org bucket vars state
    (chunked location_ids MAX_IDS_PER_REQUEST)

/-! The place resolver (`find_places`, `pick_best_feature`,
`resolve_place_ids`). -/

/-- `find_places` from the source.  `httpFind` is the place-search
collaborator: raw query in, decoded JSON body out (or an HTTP-level error).
A missing API key raises pre-flight; a response dict carrying `exception`
raises. -/
def find_places (httpFind : String → Except String JVal)
    (apiKey : Option String) (query : String) : Except String JVal := do
  if ¬ envTruthy apiKey then throw "RuntimeError: Falta METEOSIX_API_KEY"
  let data ← httpFind query
  if hasExceptionKey data then throw "RuntimeError: Error findPlaces"
  else pure data

/-- Name of a feature as `pick_best_feature` reads it:
`(f.get("properties") or {})`, then `(props.get("name") or "")`; a truthy
non-dict `properties` or a truthy non-string name raises, exactly where
Python's `.get`/`.strip()` would. -/
def featureName (f : JVal) : Except String String := do
  let props := jOr (← jGet f "properties") (.obj [])
  asStr (jOr (← jGet props "name") (.str ""))

/-- `mapM` over `Except`, written as plain recursion. -/
def mapExcept (f : α → Except String β) : List α → Except String (List β)
  | [] => .ok []
  | a :: as => do pure ((← f a) :: (← mapExcept f as))

/-- `pick_best_feature` from the source: collect all features whose
normalized name equals the normalized query (the whole list is scanned, so a
bad name anywhere raises even if an exact match was already found); return
the first exact match, else the first feature, else `None`. -/
def pick_best_feature (query : String) (features : List JVal) :
    Except String (Option JVal) := do
  let q := normalize_query query
  let names ← mapExcept featureName features
  let exact := ((features.zip names).filter
    (fun p => normalize_query p.2 == q)).map (fun p => p.1)
  match exact with
  | f :: _ => pure (some f)
  | [] => pure features.head?

/-- The fetch-and-select part of one `resolve_place_ids` iteration:
`find_places`, `data.get("features") or []`, `pick_best_feature`. -/
def fetchedBest (fp : String → Except String JVal) (q : String) :
    Except String (Option JVal) := do
  let data ← fp q
  let features ← asList (jOr (← jGet data "features") (.arr []))
  pick_best_feature q features

/-- The entry one `resolve_place_ids` iteration writes for query `q`.  The
source decides with `if not best:` — Python truthiness of the selected
feature — so the unresolved marker `{"id": None, "query": q}` is written
both when no feature was selected (`None`) and when the selected feature is
falsy (such as the empty dict, which `pick_best_feature` can return as the
first-feature fallback); otherwise the record is built from the best
feature's properties (its `id` stripped, the remaining properties stored
as `props.get(...)` returns them). -/
def resolveOne (fp : String → Except String JVal) (q : String) :
    Except String JVal := do
  match ← fetchedBest fp q with
  | none => pure (.obj [("id", .null), ("query", .str q)])
  | some best =>
    if ¬ jTruthy best then
      pure (.obj [("id", .null), ("query", .str q)])
    else do
      let props := jOr (← jGet best "properties") (.obj [])
      let place_id ← asStr (jOr (← jGet props "id") (.str ""))
      pure (.obj
        [("query", .str q), ("id", .str (pyStrip place_id)),
         ("name", ← jGet props "name"),
         ("municipality", ← jGet props "municipality"),
         ("province", ← jGet props "province"),
         ("type", ← jGet props "type")])

/-- `if key in out and out[key].get("id"):` — the cached-entry test; a
non-dict cache entry raises at `.get`. -/
def cachedIdTruthy (out : List (String × JVal)) (key : String) :
    Except String Bool :=
  match jLookup out key with
  | none => .ok false
  | some e => do pure (jTruthy (← jGet e "id"))

/-- Observable result of `resolve_place_ids`: the final mapping, the raw
queries for which a place-search network call was issued, the entries
written (key, raw query, entry), and whether the loop completed (when
`failed`, the exception propagated and `save_json(PLACES_PATH, out)` was
never reached, so nothing was persisted). -/
structure ResolveRun where
  out : List (String × JVal)
  calls : List String
  writes : List (String × String × JVal)
  completed : Bool
  deriving DecidableEq

/-- The `for q in place_queries` loop of `resolve_place_ids`. -/
def resolveLoop (fp : String → Except String JVal)
    (out : List (String × JVal)) : List String → ResolveRun
  | [] => ⟨out, [], [], true⟩
  | q :: rest =>
    let key := normalize_query q
    match cachedIdTruthy out key with
    | .error _ => ⟨out, [], [], false⟩
    | .ok true => resolveLoop fp out rest
    | .ok false =>
      match resolveOne fp q with
      | .error _ => ⟨out, [q], [], false⟩
      | .ok entry =>
        let r := resolveLoop fp (dictSet out key entry) rest
        ⟨r.out, q :: r.calls, (key, q, entry) :: r.writes, r.completed⟩

/-- `resolve_place_ids` from the source: start from `out = dict(cache)`,
resolve each query (skipping those whose cached entry already has a truthy
id), then persist the full mapping.  `fp` is `find_places` with its HTTP
collaborator and API key already applied. -/
def resolve_place_ids (fp : String → Except String JVal)
    (cache : List (String × JVal)) (place_queries : List String) : ResolveRun :=
  resolveLoop fp cache place_queries

/-! Properties of `chunked` (claim C2). -/

theorem pyRange_neg {a b s : ℕ} (h : ¬ (0 < s ∧ a < b)) : pyRange a b s = [] := by
  unfold pyRange
  cases hba : b - a with
  | zero => rfl
  | succ f =>
    simp only [pyRangeF]
    rw [if_neg h]

theorem pyRange_pos {a b s : ℕ} (hs : 0 < s) (hab : a < b) :
    pyRange a b s = a :: pyRange (a + s) b s := by
  unfold pyRange
  obtain ⟨f, hf⟩ : ∃ f, b - a = f + 1 := ⟨b - a - 1, by omega⟩
  rw [hf]
  simp only [pyRangeF]
  rw [if_pos ⟨hs, hab⟩]
  congr 1
  exact pyRangeF_congr f (b - (a + s)) (a + s) (by omega) (by omega)

theorem pyRange_shift (k : ℕ) : ∀ a b s : ℕ,
    pyRange (a + k) (b + k) s = (pyRange a b s).map (fun x => x + k)
  | a, b, s => by
    by_cases h : 0 < s ∧ a < b
    · rw [pyRange_pos h.1 h.2, pyRange_pos h.1 (show a + k < b + k by omega)]
      have e : a + k + s = (a + s) + k := by omega
      rw [List.map_cons, e, pyRange_shift k (a + s) b s]
    · rw [pyRange_neg h, pyRange_neg (show ¬ (0 < s ∧ a + k < b + k) by omega)]
      rfl
termination_by a b _ => b - a
decreasing_by omega

theorem pyRange_restart {n L : ℕ} (_hn : 0 < n) :
    pyRange n L n = (pyRange 0 (L - n) n).map (fun x => x + n) := by
  by_cases h : n < L
  · have h2 : L = (L - n) + n := by omega
    calc pyRange n L n = pyRange (0 + n) ((L - n) + n) n := by
          rw [Nat.zero_add, ← h2]
    _ = (pyRange 0 (L - n) n).map (fun x => x + n) := pyRange_shift n 0 (L - n) n
  · rw [pyRange_neg (show ¬ (0 < n ∧ n < L) by omega),
      pyRange_neg (show ¬ (0 < n ∧ 0 < L - n) by omega)]
    rfl


theorem chunked_nil (n : ℕ) : chunked [] n = [] := by
  simp [chunked, pyRange_neg (show ¬ (0 < n ∧ 0 < 0) by omega)]

/-- The list comprehension over `range(0, len(xs), n)` satisfies the natural
head/tail recursion. -/
theorem chunked_cons {xs : List String} {n : ℕ} (hn : 0 < n) (hxs : xs ≠ []) :
    chunked xs n = xs.take n :: chunked (xs.drop n) n := by
  have hlen : 0 < xs.length := List.length_pos.mpr hxs
  unfold chunked
  rw [pyRange_pos hn hlen, List.map_cons, List.drop_zero, Nat.zero_add,
    pyRange_restart hn, List.map_map, List.length_drop]
  congr 1
  refine List.map_congr_left (fun i _ => ?_)
  simp only [Function.comp_apply, List.drop_drop, Nat.add_comm i n]

theorem chunked_flatten (n : ℕ) (hn : 0 < n) :
    ∀ xs : List String, (chunked xs n).flatten = xs
  | [] => by
    rw [chunked_nil]
    rfl
  | x :: rest => by
    rw [chunked_cons hn (by simp : (x :: rest : List String) ≠ []),
      List.flatten_cons, chunked_flatten n hn ((x :: rest).drop n),
      List.take_append_drop]
termination_by xs => xs.length
decreasing_by
  simp only [List.length_drop, List.length_cons]
  omega

theorem chunked_length_le (n : ℕ) (hn : 0 < n) :
    ∀ xs : List String, ∀ c ∈ chunked xs n, c.length ≤ n
  | [] => by
    rw [chunked_nil]
    intro c hc
    simp at hc
  | x :: rest => by
    rw [chunked_cons hn (by simp : (x :: rest : List String) ≠ [])]
    intro c hc
    rcases List.mem_cons.mp hc with h1 | h2
    · subst h1
      simp
    · exact chunked_length_le n hn ((x :: rest).drop n) c h2
termination_by xs => xs.length
decreasing_by
  simp only [List.length_drop, List.length_cons]
  omega

theorem chunked_count (n : ℕ) (hn : 0 < n) :
    ∀ xs : List String, (chunked xs n).length = (xs.length + n - 1) / n
  | [] => by
    rw [chunked_nil]
    simp [Nat.div_eq_of_lt (show n - 1 < n by omega)]
  | x :: rest => by
    rw [chunked_cons hn (by simp : (x :: rest : List String) ≠ []),
      List.length_cons, chunked_count n hn ((x :: rest).drop n),
      List.length_drop]
    have hlen : 0 < (x :: rest).length := by simp
    by_cases hL : n ≤ (x :: rest).length
    · have e1 : (x :: rest).length - n + n - 1 = (x :: rest).length - 1 := by
        omega
      have e2 : (x :: rest).length + n - 1 = ((x :: rest).length - 1) + n := by
        omega
      rw [e1, e2, Nat.add_div_right _ hn]
    · have e1 : (x :: rest).length - n + n - 1 = n - 1 := by omega
      rw [e1, Nat.div_eq_of_lt (show n - 1 < n by omega),
        Nat.div_eq_of_lt_le (show 1 * n ≤ (x :: rest).length + n - 1 by omega)
          (show (x :: rest).length + n - 1 < 2 * n by omega)]
termination_by xs => xs.length
decreasing_by
  simp only [List.length_drop, List.length_cons]
  omega

theorem chunked_dropLast (n : ℕ) (hn : 0 < n) :
    ∀ xs : List String, n < xs.length →
      ∀ c ∈ (chunked xs n).dropLast, c.length = n
  | [] => by
    intro hL
    simp at hL
  | x :: rest => by
    intro hL c hc
    set xs : List String := x :: rest with hxs
    have hne : xs ≠ [] := by simp [hxs]
    have hd : xs.drop n ≠ [] := by
      intro e
      have := congrArg List.length e
      simp only [List.length_drop, List.length_nil] at this
      omega
    have hrest : chunked (xs.drop n) n ≠ [] := by
      rw [chunked_cons hn hd]
      simp
    rw [chunked_cons hn hne, List.dropLast_cons_of_ne_nil hrest] at hc
    rcases List.mem_cons.mp hc with h1 | h2
    · subst h1
      simp only [List.length_take]
      omega
    · by_cases hL2 : n < (xs.drop n).length
      · exact chunked_dropLast n hn (xs.drop n) hL2 c h2
      · have hdd : (xs.drop n).drop n = [] := by
          apply List.eq_nil_of_length_eq_zero
          simp only [List.length_drop]
          simp only [List.length_drop] at hL2
          omega
        rw [chunked_cons hn hd, hdd, chunked_nil] at h2
        simp at h2
termination_by xs => xs.length
decreasing_by
  simp only [List.length_drop, List.length_cons]
  omega

/-- C2: for every identifier list `L` and positive `maxSize`, `chunked`
produces contiguous slices whose concatenation is `L`, each of length at
most `maxSize`, all but possibly the last of length exactly `maxSize` when
`L` is longer than `maxSize`, and there are exactly `ceil(len(L)/maxSize)`
of them. -/
theorem chunked_partitions (xs : List String) (n : ℕ) (hn : 0 < n) :
    (chunked xs n).flatten = xs ∧
    (∀ c ∈ chunked xs n, c.length ≤ n) ∧
    (chunked xs n).length = (xs.length + n - 1) / n ∧
    (n < xs.length → ∀ c ∈ (chunked xs n).dropLast, c.length = n) :=
  ⟨chunked_flatten n hn xs, chunked_length_le n hn xs, chunked_count n hn xs,
   fun h => chunked_dropLast n hn xs h⟩

/-- Witness for C2 at a concrete input: five identifiers, batches of two. -/
theorem chunked_partitions_witness :
    (chunked ["a", "b", "c", "d", "e"] 2).flatten = ["a", "b", "c", "d", "e"] ∧
    (∀ c ∈ chunked ["a", "b", "c", "d", "e"] 2, c.length ≤ 2) ∧
    (chunked ["a", "b", "c", "d", "e"] 2).length = (5 + 2 - 1) / 2 ∧
    (2 < 5 → ∀ c ∈ (chunked ["a", "b", "c", "d", "e"] 2).dropLast,
      c.length = 2) := by
  have h := chunked_partitions ["a", "b", "c", "d", "e"] 2 (by decide)
  simpa using h

/-! Reduction helpers for `Except` do-notation. -/

@[simp] theorem exceptBind_ok {α β : Type} (a : α) (f : α → Except String β) :
    (Except.ok a >>= f) = f a := rfl

@[simp] theorem exceptBind_error {α β : Type} (m : String)
    (f : α → Except String β) :
    ((Except.error m : Except String α) >>= f) = .error m := rfl

@[simp] theorem exceptPure {α : Type} (a : α) :
    (pure a : Except String α) = .ok a := rfl

@[simp] theorem exceptThrow {α : Type} (m : String) :
    (throw m : Except String α) = .error m := rfl

/-! Claim C10: the writer adapter. -/

/-- C10: with writer credentials configured, `write_to_influx` returns
exactly the number of point tuples it was given; an empty list performs no
write call to the time-series collaborator (and returns 0); otherwise one
write call carries exactly the converted input points — nothing filtered,
nothing duplicated. -/
theorem write_to_influx_exact (token org bucket : Option String)
    (points : List SeriesPoint)
    (ht : envTruthy token = true) (ho : envTruthy org = true)
    (hb : envTruthy bucket = true) :
    write_to_influx token org bucket points =
      .ok (points.length,
        if points.isEmpty then [] else [points.map toInfluxPoint]) := by
  unfold write_to_influx
  rw [if_neg (by simp [ht, ho, hb])]
  simp

/-- Witness for C10: one concrete point is counted once and written once;
the empty list yields a zero count and no write call. -/
theorem write_to_influx_exact_witness :
    write_to_influx (some "tok") (some "org") (some "bkt")
        [⟨"2026-01-01T00:00:00Z", [("value", .num 1)], [("place_id", .str "x")]⟩] =
      .ok (1, [[toInfluxPoint
        ⟨"2026-01-01T00:00:00Z", [("value", .num 1)], [("place_id", .str "x")]⟩]]) ∧
    write_to_influx (some "tok") (some "org") (some "bkt") [] = .ok (0, []) := by
  constructor
  · exact write_to_influx_exact (some "tok") (some "org") (some "bkt") _
      (by decide) (by decide) (by decide)
  · exact write_to_influx_exact (some "tok") (some "org") (some "bkt") []
      (by decide) (by decide) (by decide)

/-! Claim C1: the digest-skip logic of the `run_etl` batch loop. -/

/-- C1: when the loaded ledger already maps this batch's key to digest `D`
and the freshly fetched response also hashes to `D`, the loop body writes
zero points, performs no transform, performs no ledger write, and returns
the ledger unchanged — so the entry for the key is still `D`. -/
theorem processBatch_skip
    (http : List String → List String → Except String JVal)
    (apiKey token org bucket : Option String) (vars : List String)
    (state : List (String × JVal)) (batch : List String) (resp : JVal)
    (D : String)
    (hfetch : request_forecast http apiKey batch vars = .ok resp)
    (hdig : stable_hash resp = D)
    (hled : jLookup state (String.intercalate "," batch) = some (.str D)) :
    processBatch http apiKey token org bucket vars state batch =
      .ok ⟨state, 0, false, []⟩ ∧
    jLookup state (String.intercalate "," batch) = some (.str D) := by
  refine ⟨?_, hled⟩
  unfold processBatch
  rw [hfetch]
  simp only [exceptBind_ok]
  rw [if_pos (by rw [jLookupD, hled, hdig]; rfl)]
  rfl

/-- Witness for C1: a concrete one-batch setup whose ledger digest matches
the fetched response's digest is skipped outright. -/
theorem processBatch_skip_witness :
    processBatch
      (fun _ _ => .ok (.obj [("features", .arr [])]))
      (some "k") (some "t") (some "o") (some "b") ["temperature"]
      [("id1", .str (stable_hash (.obj [("features", .arr [])])))] ["id1"] =
      .ok ⟨[("id1", .str (stable_hash (.obj [("features", .arr [])])))], 0,
        false, []⟩ ∧
    jLookup [("id1", .str (stable_hash (.obj [("features", .arr [])])))]
        (String.intercalate "," ["id1"]) =
      some (.str (stable_hash (.obj [("features", .arr [])]))) := by
  refine processBatch_skip _ _ _ _ _ _ _ _ _ _ rfl rfl ?_
  rfl

/-! Claim C4: a top-level `exception` in a forecast response is a hard
failure — the run aborts with no ledger update for that batch or any later
one. -/

/-- A ledger write to one key leaves every other key's entry alone. -/
theorem jLookup_dictSet_ne (kvs : List (String × JVal)) (k k2 : String)
    (v : JVal) (h : k2 ≠ k) : jLookup (dictSet kvs k v) k2 = jLookup kvs k2 := by
  have hkk2 : (k == k2) = false := beq_eq_false_iff_ne.mpr (Ne.symm h)
  unfold dictSet
  by_cases hmem : kvs.any (fun kv => kv.1 == k)
  · rw [if_pos hmem]
    clear hmem
    induction kvs with
    | nil => rfl
    | cons a as ih =>
      by_cases ha : a.1 == k
      · have ha2 : a.1 = k := by simpa using ha
        simp only [List.map_cons, if_pos ha, jLookup, List.find?_cons]
        rw [show ((k, v).1 == k2) = false from hkk2,
          show (a.1 == k2) = false from ha2 ▸ hkk2]
        exact ih
      · simp only [List.map_cons, if_neg ha, jLookup, List.find?_cons]
        cases hk2 : (a.1 == k2) with
        | true => rfl
        | false => exact ih
  · rw [if_neg hmem]
    unfold jLookup
    rw [List.find?_append]
    have : List.find? (fun kv => kv.1 == k2) [(k, v)] = none := by
      simp only [List.find?_cons, List.find?_nil]
      rw [show ((k, v).1 == k2) = false from hkk2]
    rw [this, Option.or_none]

/-- Case analysis for a successful `processBatch`: either the digest matched
and nothing changed, or exactly one ledger write for this batch's key was
performed. -/
theorem processBatch_ok_cases
    (http : List String → List String → Except String JVal)
    (apiKey token org bucket : Option String) (vars : List String)
    (state : List (String × JVal)) (batch : List String) (r : BatchResult)
    (h : processBatch http apiKey token org bucket vars state batch = .ok r) :
    (r.ledger = state ∧ r.writes = []) ∨
    (∃ hdg, r.ledger = dictSet state (String.intercalate "," batch) (.str hdg) ∧
      r.writes = [(String.intercalate "," batch, hdg)]) := by
  unfold processBatch at h
  cases hrf : request_forecast http apiKey batch vars with
  | error m => rw [hrf] at h; simp at h
  | ok data =>
    rw [hrf] at h
    simp only [exceptBind_ok] at h
    split at h
    · simp only [exceptPure, Except.ok.injEq] at h
      subst h
      exact Or.inl ⟨rfl, rfl⟩
    · cases hjg : jGet data "features" with
      | error m => rw [hjg] at h; simp at h
      | ok fv =>
        rw [hjg] at h
        simp only [exceptBind_ok] at h
        cases hal : asList (jOr fv (.arr [])) with
        | error m => rw [hal] at h; simp at h
        | ok features =>
          rw [hal] at h
          simp only [exceptBind_ok] at h
          cases hpf : processFeatures features with
          | error m => rw [hpf] at h; simp at h
          | ok pr =>
            rw [hpf] at h
            simp only [exceptBind_ok] at h
            cases hw : write_to_influx token org bucket pr.1 with
            | error m => rw [hw] at h; simp at h
            | ok w =>
              rw [hw] at h
              simp only [exceptBind_ok, exceptPure, Except.ok.injEq] at h
              subst h
              exact Or.inr ⟨stable_hash data, rfl, rfl⟩

/-- If the loop body is guaranteed to raise on batch `b`, then however the
run reached `b`, the run aborts; every ledger write that happened belongs to
a batch strictly before `b`, and any key not written earlier is untouched. -/
theorem runBatches_abort_after
    (http : List String → List String → Except String JVal)
    (apiKey token org bucket : Option String) (vars : List String)
    (b : List String) (post : List (List String))
    (hb : ∀ st2, ∃ m,
      processBatch http apiKey token org bucket vars st2 b = .error m) :
    ∀ (pre : List (List String)) (st : List (String × JVal)),
      (∃ m, (runBatches http apiKey token org bucket vars st
        (pre ++ b :: post)).outcome = .aborted m) ∧
      (∀ w ∈ (runBatches http apiKey token org bucket vars st
          (pre ++ b :: post)).writes,
        w.1 ∈ pre.map (fun bt => String.intercalate "," bt)) ∧
      (∀ k, k ∉ pre.map (fun bt => String.intercalate "," bt) →
        jLookup (runBatches http apiKey token org bucket vars st
          (pre ++ b :: post)).ledger k = jLookup st k)
  | [], st => by
    obtain ⟨m, hm⟩ := hb st
    have hrun : runBatches http apiKey token org bucket vars st
        ([] ++ b :: post) = ⟨st, 0, [], .aborted m⟩ := by
      simp only [List.nil_append, runBatches, hm]
    rw [hrun]
    refine ⟨⟨m, rfl⟩, ?_, fun k _ => rfl⟩
    intro w hw
    simp at hw
  | p :: pre2, st => by
    cases hpb : processBatch http apiKey token org bucket vars st p with
    | error m =>
      have hrun : runBatches http apiKey token org bucket vars st
          ((p :: pre2) ++ b :: post) = ⟨st, 0, [], .aborted m⟩ := by
        simp only [List.cons_append, runBatches, hpb]
      rw [hrun]
      refine ⟨⟨m, rfl⟩, ?_, fun k _ => rfl⟩
      intro w hw
      simp at hw
    | ok r =>
      have IH := runBatches_abort_after http apiKey token org bucket vars b
        post hb pre2 r.ledger
      have hcases := processBatch_ok_cases http apiKey token org bucket vars
        st p r hpb
      have hrun : runBatches http apiKey token org bucket vars st
          ((p :: pre2) ++ b :: post) =
          ⟨(runBatches http apiKey token org bucket vars r.ledger
              (pre2 ++ b :: post)).ledger,
           r.written + (runBatches http apiKey token org bucket vars r.ledger
              (pre2 ++ b :: post)).total,
           r.writes ++ (runBatches http apiKey token org bucket vars r.ledger
              (pre2 ++ b :: post)).writes,
           (runBatches http apiKey token org bucket vars r.ledger
              (pre2 ++ b :: post)).outcome⟩ := by
        simp only [List.cons_append, runBatches, hpb]
        rfl
      rw [hrun]
      refine ⟨IH.1, ?_, ?_⟩
      · intro w hw
        simp only [List.map_cons, List.mem_cons]
        rcases List.mem_append.mp hw with h1 | h2
        · left
          rcases hcases with ⟨_, hw0⟩ | ⟨hdg, _, hw1⟩
          · rw [hw0] at h1
            simp at h1
          · rw [hw1] at h1
            simp only [List.mem_singleton] at h1
            rw [h1]
        · right
          exact IH.2.1 w h2
      · intro k hk
        simp only [List.map_cons, List.mem_cons, not_or] at hk
        rw [IH.2.2 k hk.2]
        rcases hcases with ⟨hl, _⟩ | ⟨hdg, hl, _⟩
        · rw [hl]
        · rw [hl, jLookup_dictSet_ne _ _ _ _ hk.1]

/-- C4: a forecast response whose top level carries an `exception` key makes
`request_forecast` raise, the loop body for that batch raise for any ledger,
and the whole `run_etl` run abort with no points for that batch: every
ledger write belongs to an earlier batch, and the failing batch's key keeps
exactly the entry the loaded ledger had (when no earlier batch shares its
key). -/
theorem run_etl_exception_aborts
    (http : List String → List String → Except String JVal)
    (apiKey token org bucket : Option String)
    (location_ids : List String) (variableNames : List String)
    (state : List (String × JVal)) (vars : List String)
    (pre post : List (List String)) (b : List String) (resp : JVal)
    (hvars : (if variableNames.isEmpty then DEFAULT_VARIABLES
      else variableNames) = vars)
    (hsplit : chunked location_ids MAX_IDS_PER_REQUEST = pre ++ b :: post)
    (hhttp : http b vars = .ok resp)
    (hexc : hasExceptionKey resp = true) :
    (∃ m, request_forecast http apiKey b vars = .error m) ∧
    (∀ st2, ∃ m,
      processBatch http apiKey token org bucket vars st2 b = .error m) ∧
    (∃ m, (run_etl http apiKey token org bucket location_ids variableNames
      state).outcome = .aborted m) ∧
    (∀ w ∈ (run_etl http apiKey token org bucket location_ids variableNames
        state).writes,
      w.1 ∈ pre.map (fun bt => String.intercalate "," bt)) ∧
    (String.intercalate "," b ∉ pre.map (fun bt => String.intercalate "," bt) →
      jLookup (run_etl http apiKey token org bucket location_ids variableNames
        state).ledger (String.intercalate "," b) =
      jLookup state (String.intercalate "," b)) := by
  have hrf : ∃ m, request_forecast http apiKey b vars = .error m := by
    unfold request_forecast
    by_cases hk : envTruthy apiKey
    · rw [if_neg (by simp [hk])]
      simp only [exceptBind_ok, hhttp, if_pos hexc, exceptThrow]
      exact ⟨_, rfl⟩
    · rw [if_pos (by simp [hk])]
      exact ⟨_, rfl⟩
  have hpb : ∀ st2, ∃ m,
      processBatch http apiKey token org bucket vars st2 b = .error m := by
    intro st2
    obtain ⟨m, hm⟩ := hrf
    unfold processBatch
    rw [hm]
    exact ⟨m, rfl⟩
  have hrun := runBatches_abort_after http apiKey token org bucket vars b
    post hpb pre state
  unfold run_etl
  rw [hvars, hsplit]
  exact ⟨hrf, hpb, hrun.1, hrun.2.1, fun hnk => hrun.2.2 _ hnk⟩

/-- Witness for C4: a single one-id batch whose response carries a top-level
`exception` aborts the run with no ledger writes and an untouched ledger. -/
theorem run_etl_exception_aborts_witness :
    (∃ m, request_forecast (fun _ _ => .ok (.obj [("exception", .str "boom")]))
      (some "k") ["id1"] DEFAULT_VARIABLES = .error m) ∧
    (∀ st2, ∃ m, processBatch
      (fun _ _ => .ok (.obj [("exception", .str "boom")]))
      (some "k") (some "t") (some "o") (some "b") DEFAULT_VARIABLES st2 ["id1"] =
        .error m) ∧
    (∃ m, (run_etl (fun _ _ => .ok (.obj [("exception", .str "boom")]))
      (some "k") (some "t") (some "o") (some "b") ["id1"] []
      [("id1", .str "olddigest")]).outcome = .aborted m) ∧
    (∀ w ∈ (run_etl (fun _ _ => .ok (.obj [("exception", .str "boom")]))
        (some "k") (some "t") (some "o") (some "b") ["id1"] []
        [("id1", .str "olddigest")]).writes,
      w.1 ∈ ([] : List (List String)).map (fun bt => String.intercalate "," bt)) ∧
    (String.intercalate "," ["id1"] ∉
        ([] : List (List String)).map (fun bt => String.intercalate "," bt) →
      jLookup (run_etl (fun _ _ => .ok (.obj [("exception", .str "boom")]))
        (some "k") (some "t") (some "o") (some "b") ["id1"] []
        [("id1", .str "olddigest")]).ledger (String.intercalate "," ["id1"]) =
      jLookup [("id1", .str "olddigest")] (String.intercalate "," ["id1"])) :=
  run_etl_exception_aborts _ _ _ _ _ _ _ _ _ [] [] ["id1"] _ rfl (by decide)
    rfl rfl

/-! Claims C5–C7: the transformer's field extraction. -/

/-- A minimal feature wrapping one variable's hourly records, used to state
per-record transformer properties. -/
def mkFeature (vn : JVal) (values : List JVal) : JVal :=
  .obj [("properties", .obj
    [("id", .str "p1"), ("name", .str "PlaceX"),
     ("days", .arr [.obj [("variables", .arr
       [.obj [("name", vn), ("values", .arr values)]])]])])]

/-- The tags `mkFeature` gives rise to. -/
def mkTags (vn : JVal) : List (String × JVal) :=
  [("place_id", .str "p1"), ("place_name", .str "PlaceX"),
   ("municipality", .str ""), ("province", .str ""), ("type", .str ""),
   ("variable", vn), ("model", .str ""), ("grid", .str ""), ("units", .str "")]

theorem iter_mkFeature (vn : JVal) (values : List JVal)
    (hvn : jTruthy vn = true) :
    iter_timeseries_points (mkFeature vn values) =
      transformValues vn (mkTags vn) values := by
  have hj : jOr vn (.str "") = vn := by
    unfold jOr
    rw [if_pos hvn]
  have hvals : asList (jOr (.arr values) (.arr [])) = .ok values := by
    unfold jOr
    by_cases h : values = []
    · subst h
      rw [if_neg (by simp)]
      rfl
    · rw [if_pos (by simp [h])]
      rfl
  have h1 : iter_timeseries_points (mkFeature vn values) =
      (transformVariables
          [("place_id", .str "p1"), ("place_name", .str "PlaceX"),
           ("municipality", .str ""), ("province", .str ""),
           ("type", .str "")]
          [.obj [("name", vn), ("values", .arr values)]] >>= fun here =>
        (Except.ok [] : Except String (List SeriesPoint)) >>= fun more =>
        pure (here ++ more)) := rfl
  have h2 : transformVariables
      [("place_id", .str "p1"), ("place_name", .str "PlaceX"),
       ("municipality", .str ""), ("province", .str ""), ("type", .str "")]
      [.obj [("name", vn), ("values", .arr values)]] =
      (asList (jOr (.arr values) (.arr [])) >>= fun vals =>
        transformValues (jOr vn (.str ""))
          [("place_id", .str "p1"), ("place_name", .str "PlaceX"),
           ("municipality", .str ""), ("province", .str ""),
           ("type", .str ""), ("variable", jOr vn (.str "")),
           ("model", .str ""), ("grid", .str ""), ("units", .str "")]
          vals >>= fun here =>
        (Except.ok [] : Except String (List SeriesPoint)) >>= fun more =>
        pure (here ++ more)) := rfl
  rw [h1, h2, hvals, hj]
  simp only [exceptBind_ok]
  cases h : transformValues vn (mkTags vn) values with
  | error m =>
    unfold mkTags at h
    rw [h]
    rfl
  | ok l =>
    unfold mkTags at h
    rw [h]
    simp only [exceptBind_ok, List.append_nil, exceptPure]

theorem pyFloat_ok_ne_null {v : JVal} {q : ℚ} (h : pyFloat v = .ok q) :
    v ≠ .null := by
  intro e
  rw [e] at h
  simp [pyFloat] at h

/-- Independence of the two wind sub-fields: each present (non-null,
floatable) sub-value yields its own numeric field; an absent one yields no
field and does not block the other; no generic `value` field ever appears
for the wind variable. -/
theorem hourlyFields_wind_spec (kvs : List (String × JVal))
    (hm : jLookupD kvs "moduleValue" = .null ∨
      ∃ q, pyFloat (jLookupD kvs "moduleValue") = .ok q)
    (hd : jLookupD kvs "directionValue" = .null ∨
      ∃ q, pyFloat (jLookupD kvs "directionValue") = .ok q) :
    ∃ flds, hourlyFields (.str "wind") (.obj kvs) = .ok flds ∧
      (∀ q, pyFloat (jLookupD kvs "moduleValue") = .ok q →
        ("wind_module", .num q) ∈ flds) ∧
      (∀ q, pyFloat (jLookupD kvs "directionValue") = .ok q →
        ("wind_direction", .num q) ∈ flds) ∧
      (jLookupD kvs "moduleValue" = .null →
        ∀ x, ("wind_module", x) ∉ flds) ∧
      (jLookupD kvs "directionValue" = .null →
        ∀ x, ("wind_direction", x) ∉ flds) ∧
      (∀ x, ("value", x) ∉ flds) := by
  unfold hourlyFields
  rw [if_pos rfl]
  simp only [jGet, exceptBind_ok, exceptPure]
  rcases hm with hm | ⟨qm, hqm⟩ <;> rcases hd with hd | ⟨qd, hqd⟩
  · have c1 : ¬ (jLookupD kvs "moduleValue" ≠ .null) := by simp [hm]
    have c2 : ¬ (jLookupD kvs "directionValue" ≠ .null) := by simp [hd]
    simp only [if_neg c1, if_neg c2, exceptBind_ok, exceptPure,
      List.nil_append]
    refine ⟨_, rfl, ?_, ?_, ?_, ?_, ?_⟩ <;> simp [hm, hd, pyFloat]
  · have c1 : ¬ (jLookupD kvs "moduleValue" ≠ .null) := by simp [hm]
    have c2 : jLookupD kvs "directionValue" ≠ .null := pyFloat_ok_ne_null hqd
    simp only [if_neg c1, if_pos c2, hqd, exceptBind_ok, exceptPure,
      List.nil_append]
    refine ⟨_, rfl, ?_, ?_, ?_, ?_, ?_⟩ <;>
      simp [hm, hqd, c2, pyFloat, Except.ok.injEq]
  · have c1 : jLookupD kvs "moduleValue" ≠ .null := pyFloat_ok_ne_null hqm
    have c2 : ¬ (jLookupD kvs "directionValue" ≠ .null) := by simp [hd]
    simp only [if_pos c1, if_neg c2, hqm, exceptBind_ok, exceptPure,
      List.append_nil]
    refine ⟨_, rfl, ?_, ?_, ?_, ?_, ?_⟩ <;>
      simp [hd, hqm, c1, pyFloat, Except.ok.injEq]
  · have c1 : jLookupD kvs "moduleValue" ≠ .null := pyFloat_ok_ne_null hqm
    have c2 : jLookupD kvs "directionValue" ≠ .null := pyFloat_ok_ne_null hqd
    simp only [if_pos c1, if_pos c2, hqm, hqd, exceptBind_ok, exceptPure]
    refine ⟨_, rfl, ?_, ?_, ?_, ?_, ?_⟩ <;>
      simp [hqm, hqd, c1, c2, pyFloat, Except.ok.injEq]

instance {ε α : Type} [DecidableEq ε] [DecidableEq α] :
    DecidableEq (Except ε α) := fun x y =>
  match x, y with
  | .error a, .error b =>
    decidable_of_iff (a = b) ⟨fun h => by rw [h], Except.error.inj⟩
  | .ok a, .ok b =>
    decidable_of_iff (a = b) ⟨fun h => by rw [h], Except.ok.inj⟩
  | .error _, .ok _ => isFalse (fun h => Except.noConfusion h)
  | .ok _, .error _ => isFalse (fun h => Except.noConfusion h)

/-- Scalar field extraction: a present, non-empty value becomes the numeric
`value` field when it floats, and the string fallback `value_str` when
`float(...)` raises; never both. -/
theorem hourlyFields_scalar_spec (vn : JVal) (kvs : List (String × JVal))
    (hw : vn ≠ .str "wind")
    (hv0 : jLookupD kvs "value" ≠ .null)
    (hv1 : jLookupD kvs "value" ≠ .str "") :
    ∃ flds, hourlyFields vn (.obj kvs) = .ok flds ∧
      (∀ q, pyFloat (jLookupD kvs "value") = .ok q →
        ("value", .num q) ∈ flds ∧ ∀ x, ("value_str", x) ∉ flds) ∧
      (∀ e, pyFloat (jLookupD kvs "value") = .error e →
        ("value_str", .str (pyStr (jLookupD kvs "value"))) ∈ flds ∧
        ∀ x, ("value", x) ∉ flds) := by
  unfold hourlyFields
  rw [if_neg hw]
  simp only [jGet, exceptBind_ok, exceptPure]
  rw [if_pos ⟨hv0, hv1⟩]
  cases hp : pyFloat (jLookupD kvs "value") with
  | ok q =>
    simp only [hp, exceptBind_ok, exceptPure]
    refine ⟨_, rfl, ?_, ?_⟩ <;> simp [hp, Except.ok.injEq]
  | error e =>
    simp only [hp, exceptBind_ok, exceptPure]
    refine ⟨_, rfl, ?_, ?_⟩ <;> simp [hp]

/-- A single hourly record with a truthy string timestamp and a nonempty
field map becomes exactly one point. -/
theorem transformValues_single_point (vn : JVal) (tags : List (String × JVal))
    (kvs : List (String × JVal)) (t : String) (flds : List (String × JVal))
    (ht : jLookupD kvs "timeInstant" = .str t) (htt : t ≠ "")
    (hf : hourlyFields vn (.obj kvs) = .ok flds) (hne : flds ≠ []) :
    transformValues vn tags [.obj kvs] = .ok [⟨t, flds, tags⟩] := by
  unfold transformValues
  simp only [jGet, ht, exceptBind_ok, jTruthy_str, decide_eq_true_eq]
  rw [if_neg (by simp [htt]), hf]
  simp only [exceptBind_ok, isoparse, List.isEmpty_iff]
  rw [if_neg hne]
  unfold transformValues
  rfl

/-- A single hourly record with a falsy `timeInstant` produces no point. -/
theorem transformValues_single_skip (vn : JVal) (tags : List (String × JVal))
    (kvs : List (String × JVal))
    (ht : jTruthy (jLookupD kvs "timeInstant") = false) :
    transformValues vn tags [.obj kvs] = .ok [] := by
  unfold transformValues
  simp only [jGet, exceptBind_ok]
  rw [if_pos (by simp [ht])]
  unfold transformValues
  rfl

/-- A single hourly record whose field map comes out empty produces no
point. -/
theorem transformValues_single_empty (vn : JVal) (tags : List (String × JVal))
    (kvs : List (String × JVal)) (t : String)
    (ht : jLookupD kvs "timeInstant" = .str t)
    (hf : hourlyFields vn (.obj kvs) = .ok []) :
    transformValues vn tags [.obj kvs] = .ok [] := by
  unfold transformValues
  simp only [jGet, ht, exceptBind_ok]
  by_cases htt : t = ""
  · rw [if_pos (by simp [htt])]
    unfold transformValues
    rfl
  · rw [if_neg (by simp [htt]), hf]
    simp only [exceptBind_ok, isoparse, List.isEmpty_nil, if_true]
    unfold transformValues
    rfl

/-- Inversion for a successful `Except` bind. -/
theorem exceptBind_ok_inv {α β : Type} {m : Except String α}
    {g : α → Except String β} {r : β} (h : (m >>= g) = .ok r) :
    ∃ v, m = .ok v ∧ g v = .ok r := by
  cases m with
  | ok v => exact ⟨v, rfl, h⟩
  | error e => exact (Except.noConfusion h)

/-- A wind record with both sub-values absent and no truthy `modelRun` has
an empty field map. -/
theorem hourlyFields_wind_empty (kvs : List (String × JVal))
    (hm : jLookupD kvs "moduleValue" = .null)
    (hd : jLookupD kvs "directionValue" = .null)
    (hmr : jTruthy (jLookupD kvs "modelRun") = false) :
    hourlyFields (.str "wind") (.obj kvs) = .ok [] := by
  unfold hourlyFields
  rw [if_pos rfl]
  simp only [jGet, exceptBind_ok, exceptPure]
  rw [if_neg (by simp [hm]), if_neg (by simp [hd])]
  simp only [exceptBind_ok, exceptPure, List.nil_append]
  rw [if_neg (by simp [hmr])]

/-- A non-wind record with an absent or empty value and no truthy
`modelRun` has an empty field map. -/
theorem hourlyFields_scalar_empty (vn : JVal) (kvs : List (String × JVal))
    (hw : vn ≠ .str "wind")
    (hv : jLookupD kvs "value" = .null ∨ jLookupD kvs "value" = .str "")
    (hmr : jTruthy (jLookupD kvs "modelRun") = false) :
    hourlyFields vn (.obj kvs) = .ok [] := by
  unfold hourlyFields
  rw [if_neg hw]
  simp only [jGet, exceptBind_ok, exceptPure]
  rw [if_neg (by rcases hv with hv | hv <;> simp [hv])]
  simp only [exceptBind_ok, exceptPure, List.nil_append]
  rw [if_neg (by simp [hmr])]

/-- Every point the values loop emits has a nonempty field map. -/
theorem transformValues_no_empty (vn : JVal) (tags : List (String × JVal)) :
    ∀ (values : List JVal) (pts : List SeriesPoint),
      transformValues vn tags values = .ok pts → ∀ p ∈ pts, p.fields ≠ []
  | [], pts => by
    intro h p hp
    unfold transformValues at h
    simp only [Except.ok.injEq] at h
    subst h
    simp at hp
  | hv :: rest, pts => by
    intro h p hp
    unfold transformValues at h
    obtain ⟨here, hX, h2⟩ := exceptBind_ok_inv h
    obtain ⟨more, hrest, h3⟩ := exceptBind_ok_inv h2
    simp only [exceptPure, Except.ok.injEq] at h3
    subst h3
    rcases List.mem_append.mp hp with hmem | hmem
    · obtain ⟨ti, _, h4⟩ := exceptBind_ok_inv hX
      split at h4
      · simp only [exceptPure, Except.ok.injEq] at h4
        subst h4
        simp at hmem
      · obtain ⟨ts, _, h5⟩ := exceptBind_ok_inv h4
        obtain ⟨fields, _, h6⟩ := exceptBind_ok_inv h5
        split at h6
        next hemp =>
          simp only [exceptPure, Except.ok.injEq] at h6
          subst h6
          simp at hmem
        next hemp =>
          simp only [exceptPure, Except.ok.injEq] at h6
          subst h6
          simp only [List.mem_singleton] at hmem
          subst hmem
          simpa [List.isEmpty_iff] using hemp
    · exact transformValues_no_empty vn tags rest more hrest p hmem

/-- Every point the per-variable loop emits has a nonempty field map. -/
theorem transformVariables_no_empty (placeTags : List (String × JVal)) :
    ∀ (vars : List JVal) (pts : List SeriesPoint),
      transformVariables placeTags vars = .ok pts → ∀ p ∈ pts, p.fields ≠ []
  | [], pts => by
    intro h p hp
    unfold transformVariables at h
    simp only [Except.ok.injEq] at h
    subst h
    simp at hp
  | var :: rest, pts => by
    intro h p hp
    unfold transformVariables at h
    obtain ⟨nm, _, h1⟩ := exceptBind_ok_inv h
    obtain ⟨md, _, h2⟩ := exceptBind_ok_inv h1
    obtain ⟨gr, _, h3⟩ := exceptBind_ok_inv h2
    obtain ⟨un, _, h4⟩ := exceptBind_ok_inv h3
    obtain ⟨vlsRaw, _, h5⟩ := exceptBind_ok_inv h4
    obtain ⟨vals, _, h6⟩ := exceptBind_ok_inv h5
    obtain ⟨here, hhere, h7⟩ := exceptBind_ok_inv h6
    obtain ⟨more, hmore, h8⟩ := exceptBind_ok_inv h7
    simp only [exceptPure, Except.ok.injEq] at h8
    subst h8
    rcases List.mem_append.mp hp with hmem | hmem
    · exact transformValues_no_empty _ _ vals here hhere p hmem
    · exact transformVariables_no_empty placeTags rest more hmore p hmem

/-- Every point the per-day loop emits has a nonempty field map. -/
theorem transformDays_no_empty (placeTags : List (String × JVal)) :
    ∀ (days : List JVal) (pts : List SeriesPoint),
      transformDays placeTags days = .ok pts → ∀ p ∈ pts, p.fields ≠ []
  | [], pts => by
    intro h p hp
    unfold transformDays at h
    simp only [Except.ok.injEq] at h
    subst h
    simp at hp
  | day :: rest, pts => by
    intro h p hp
    unfold transformDays at h
    obtain ⟨dv, _, h1⟩ := exceptBind_ok_inv h
    obtain ⟨vars, _, h2⟩ := exceptBind_ok_inv h1
    obtain ⟨here, hhere, h3⟩ := exceptBind_ok_inv h2
    obtain ⟨more, hmore, h4⟩ := exceptBind_ok_inv h3
    simp only [exceptPure, Except.ok.injEq] at h4
    subst h4
    rcases List.mem_append.mp hp with hmem | hmem
    · exact transformVariables_no_empty placeTags vars here hhere p hmem
    · exact transformDays_no_empty placeTags rest more hmore p hmem

/-- The transformer never emits a point with an empty field map. -/
theorem iter_timeseries_points_no_empty (feature : JVal)
    (pts : List SeriesPoint) (h : iter_timeseries_points feature = .ok pts) :
    ∀ p ∈ pts, p.fields ≠ [] := by
  intro p hp
  unfold iter_timeseries_points at h
  obtain ⟨props, _, h1⟩ := exceptBind_ok_inv h
  obtain ⟨exc, _, h2⟩ := exceptBind_ok_inv h1
  split at h2
  · simp only [exceptPure, Except.ok.injEq] at h2
    subst h2
    simp at hp
  · obtain ⟨pidRaw, _, h3⟩ := exceptBind_ok_inv h2
    obtain ⟨pid, _, h4⟩ := exceptBind_ok_inv h3
    obtain ⟨nm, _, h5⟩ := exceptBind_ok_inv h4
    obtain ⟨mu, _, h6⟩ := exceptBind_ok_inv h5
    obtain ⟨pv, _, h7⟩ := exceptBind_ok_inv h6
    obtain ⟨ty, _, h8⟩ := exceptBind_ok_inv h7
    obtain ⟨dRaw, _, h9⟩ := exceptBind_ok_inv h8
    obtain ⟨days, _, h10⟩ := exceptBind_ok_inv h9
    exact transformDays_no_empty _ days pts h10 p hp

/-- C5: the hourly wind record `(moduleValue 12.3, directionValue 270)` with
only a `timeInstant` besides yields exactly one point with field map
`wind_module = 12.3, wind_direction = 270` and no generic `value` field; and
for any wind record each present sub-value becomes its own numeric field
independently, absence of one not blocking the other. -/
theorem wind_transform_spec :
    (iter_timeseries_points (mkFeature (.str "wind")
        [.obj [("timeInstant", .str "2026-02-13T10:00:00Z"),
               ("moduleValue", .num (123/10)), ("directionValue", .num 270)]]) =
      .ok [⟨"2026-02-13T10:00:00Z",
            [("wind_module", .num (123/10)), ("wind_direction", .num 270)],
            mkTags (.str "wind")⟩]) ∧
    (∀ kvs : List (String × JVal),
      (jLookupD kvs "moduleValue" = .null ∨
        ∃ q, pyFloat (jLookupD kvs "moduleValue") = .ok q) →
      (jLookupD kvs "directionValue" = .null ∨
        ∃ q, pyFloat (jLookupD kvs "directionValue") = .ok q) →
      ∃ flds, hourlyFields (.str "wind") (.obj kvs) = .ok flds ∧
        (∀ q, pyFloat (jLookupD kvs "moduleValue") = .ok q →
          ("wind_module", .num q) ∈ flds) ∧
        (∀ q, pyFloat (jLookupD kvs "directionValue") = .ok q →
          ("wind_direction", .num q) ∈ flds) ∧
        (jLookupD kvs "moduleValue" = .null →
          ∀ x, ("wind_module", x) ∉ flds) ∧
        (jLookupD kvs "directionValue" = .null →
          ∀ x, ("wind_direction", x) ∉ flds) ∧
        (∀ x, ("value", x) ∉ flds)) :=
  ⟨rfl, hourlyFields_wind_spec⟩

/-- C6: for a non-wind hourly record with a present, non-empty value, a
numeric parse yields one point with field `value = <number>` (e.g. "18.5"
gives 37/2), while a failing parse yields one point with the string
fallback field `value_str` instead of discarding the record (e.g. "N/A"). -/
theorem scalar_transform_spec :
    (∃ q, iter_timeseries_points (mkFeature (.str "temperature")
        [.obj [("timeInstant", .str "2026-02-13T10:00:00Z"),
               ("value", .str "18.5")]]) =
      .ok [⟨"2026-02-13T10:00:00Z", [("value", .num q)],
            mkTags (.str "temperature")⟩] ∧ q = 37/2) ∧
    (iter_timeseries_points (mkFeature (.str "temperature")
        [.obj [("timeInstant", .str "2026-02-13T10:00:00Z"),
               ("value", .str "N/A")]]) =
      .ok [⟨"2026-02-13T10:00:00Z", [("value_str", .str "N/A")],
            mkTags (.str "temperature")⟩]) ∧
    (∀ (vn : JVal) (kvs : List (String × JVal)), vn ≠ .str "wind" →
      jLookupD kvs "value" ≠ .null → jLookupD kvs "value" ≠ .str "" →
      ∃ flds, hourlyFields vn (.obj kvs) = .ok flds ∧
        (∀ q, pyFloat (jLookupD kvs "value") = .ok q →
          ("value", .num q) ∈ flds ∧ ∀ x, ("value_str", x) ∉ flds) ∧
        (∀ e, pyFloat (jLookupD kvs "value") = .error e →
          ("value_str", .str (pyStr (jLookupD kvs "value"))) ∈ flds ∧
          ∀ x, ("value", x) ∉ flds)) ∧
    (∀ (vn : JVal) (kvs : List (String × JVal)) (t : String)
      (flds : List (String × JVal)), jTruthy vn = true →
      jLookupD kvs "timeInstant" = .str t → t ≠ "" →
      hourlyFields vn (.obj kvs) = .ok flds → flds ≠ [] →
      iter_timeseries_points (mkFeature vn [.obj kvs]) =
        .ok [⟨t, flds, mkTags vn⟩]) := by
  refine ⟨⟨_, rfl, ?_⟩, rfl, hourlyFields_scalar_spec, ?_⟩
  · simp only [List.reverse_cons, List.reverse_nil, List.nil_append,
      List.cons_append]
    have e1 : parseDigits ['1', '8'] = some (18, 2) := by decide
    have e2 : '5'.toNat - '0'.toNat = 5 := by decide
    rw [e1, e2]
    norm_num
  · intro vn kvs t flds hvn ht htt hf hne
    rw [iter_mkFeature vn _ hvn]
    exact transformValues_single_point vn (mkTags vn) kvs t flds ht htt hf hne

/-- Witness for C5: a wind record carrying only `moduleValue = 7` gets its
`wind_module` field and no `wind_direction`. -/
theorem wind_transform_spec_witness :
    ∃ flds, hourlyFields (.str "wind")
        (.obj [("moduleValue", .num 7)]) = .ok flds ∧
      (∀ q, pyFloat (jLookupD [("moduleValue", .num 7)] "moduleValue") =
          .ok q → ("wind_module", .num q) ∈ flds) ∧
      (∀ q, pyFloat (jLookupD [("moduleValue", .num 7)] "directionValue") =
          .ok q → ("wind_direction", .num q) ∈ flds) ∧
      (jLookupD [("moduleValue", .num 7)] "moduleValue" = .null →
        ∀ x, ("wind_module", x) ∉ flds) ∧
      (jLookupD [("moduleValue", .num 7)] "directionValue" = .null →
        ∀ x, ("wind_direction", x) ∉ flds) ∧
      (∀ x, ("value", x) ∉ flds) :=
  wind_transform_spec.2 [("moduleValue", .num 7)] (Or.inr ⟨7, rfl⟩)
    (Or.inl rfl)

/-- Witness for C6: a concrete numeric-valued temperature record becomes
exactly one point. -/
theorem scalar_transform_spec_witness :
    iter_timeseries_points (mkFeature (.str "temperature")
        [.obj [("timeInstant", .str "T1"), ("value", .num 3)]]) =
      .ok [⟨"T1", [("value", .num 3)], mkTags (.str "temperature")⟩] :=
  scalar_transform_spec.2.2.2 (.str "temperature")
    [("timeInstant", .str "T1"), ("value", .num 3)] "T1"
    [("value", .num 3)] rfl rfl (by decide) rfl
    (fun h => List.noConfusion h)

/-- C7 (amended): the transformer never emits a point with an empty field
map; a wind record with both sub-values absent — and, as the code requires,
no truthy `modelRun` — produces no point, and likewise a non-wind record
with an absent or empty value and no truthy `modelRun`. -/
theorem transformer_empty_fields_spec :
    (∀ f pts, iter_timeseries_points f = .ok pts →
      ∀ p ∈ pts, p.fields ≠ []) ∧
    (∀ kvs : List (String × JVal), jLookupD kvs "moduleValue" = .null →
      jLookupD kvs "directionValue" = .null →
      jTruthy (jLookupD kvs "modelRun") = false →
      (jTruthy (jLookupD kvs "timeInstant") = false ∨
        ∃ t, jLookupD kvs "timeInstant" = .str t) →
      iter_timeseries_points (mkFeature (.str "wind") [.obj kvs]) = .ok []) ∧
    (∀ (vn : JVal) (kvs : List (String × JVal)), vn ≠ .str "wind" →
      jTruthy vn = true →
      (jLookupD kvs "value" = .null ∨ jLookupD kvs "value" = .str "") →
      jTruthy (jLookupD kvs "modelRun") = false →
      (jTruthy (jLookupD kvs "timeInstant") = false ∨
        ∃ t, jLookupD kvs "timeInstant" = .str t) →
      iter_timeseries_points (mkFeature vn [.obj kvs]) = .ok []) := by
  refine ⟨iter_timeseries_points_no_empty, ?_, ?_⟩
  · intro kvs hm hd hmr hti
    rw [iter_mkFeature _ _ (by decide)]
    rcases hti with hti | ⟨t, hti⟩
    · exact transformValues_single_skip _ _ _ hti
    · exact transformValues_single_empty _ _ _ t hti
        (hourlyFields_wind_empty kvs hm hd hmr)
  · intro vn kvs hw hvn hv hmr hti
    rw [iter_mkFeature _ _ hvn]
    rcases hti with hti | ⟨t, hti⟩
    · exact transformValues_single_skip _ _ _ hti
    · exact transformValues_single_empty _ _ _ t hti
        (hourlyFields_scalar_empty vn kvs hw hv hmr)

/-- Witness for C7: the empty wind record produces no point. -/
theorem transformer_empty_fields_witness :
    iter_timeseries_points (mkFeature (.str "wind") [.obj []]) = .ok [] :=
  transformer_empty_fields_spec.2.1 [] rfl rfl rfl (Or.inl rfl)

/-- Counterexample for C7 as stated: a wind record with both `moduleValue`
and `directionValue` absent but a truthy `modelRun` does produce a point
(with field map `model_run = "run1"`), contradicting "a wind-variable record
with both moduleValue and directionValue absent produces no point". -/
theorem wind_record_modelRun_point :
    jLookupD [("timeInstant", .str "2026-02-13T10:00:00Z"),
      ("modelRun", .str "run1")] "moduleValue" = .null ∧
    jLookupD [("timeInstant", .str "2026-02-13T10:00:00Z"),
      ("modelRun", .str "run1")] "directionValue" = .null ∧
    iter_timeseries_points (mkFeature (.str "wind")
      [.obj [("timeInstant", .str "2026-02-13T10:00:00Z"),
             ("modelRun", .str "run1")]]) =
      .ok [⟨"2026-02-13T10:00:00Z", [("model_run", .str "run1")],
            mkTags (.str "wind")⟩] :=
  ⟨rfl, rfl, rfl⟩

theorem filter_head?_eq_find? {α : Type} (p : α → Bool) :
    ∀ l : List α, (l.filter p).head? = l.find? p
  | [] => rfl
  | a :: l => by
    by_cases h : p a
    · rw [List.filter_cons_of_pos h, List.find?_cons_of_pos _ h]
      rfl
    · rw [List.filter_cons_of_neg (by simpa using h),
        List.find?_cons_of_neg _ (by simpa using h)]
      exact filter_head?_eq_find? p l

/-- C9: `pick_best_feature` returns the first feature whose normalized name
equals the normalized query (provider order preserved among exact matches),
falls back to the first feature when no name matches exactly, and returns
nothing for an empty list; in particular, for query "vigo" and features
named "Vigo (Centro)" and "Vigo" it selects the one named "Vigo". -/
theorem pick_best_feature_spec :
    (∀ (query : String) (features : List JVal) (names : List String),
      mapExcept featureName features = .ok names →
      pick_best_feature query features = .ok
        (match (features.zip names).find?
            (fun p => normalize_query p.2 == normalize_query query) with
         | some p => some p.1
         | none => features.head?)) ∧
    (∀ query : String, pick_best_feature query [] = .ok none) ∧
    (pick_best_feature "vigo"
        [.obj [("properties", .obj [("name", .str "Vigo (Centro)")])],
         .obj [("properties", .obj [("name", .str "Vigo")])]] =
      .ok (some (.obj [("properties", .obj [("name", .str "Vigo")])]))) := by
  refine ⟨?_, fun query => rfl, rfl⟩
  intro query features names hnames
  unfold pick_best_feature
  rw [hnames]
  simp only [exceptBind_ok]
  have hh := filter_head?_eq_find?
    (fun p : JVal × String => normalize_query p.2 == normalize_query query)
    (features.zip names)
  cases hE : (features.zip names).filter
      (fun p => normalize_query p.2 == normalize_query query) with
  | nil =>
    rw [hE] at hh
    rw [← hh]
    simp only [List.map_nil, List.head?_nil]
    rfl
  | cons x xs =>
    rw [hE] at hh
    rw [← hh]
    simp only [List.map_cons, List.head?_cons]
    rfl

/-- Witness for C9: the exact-match rule instantiated on the two Vigo
features. -/
theorem pick_best_feature_spec_witness :
    pick_best_feature "vigo"
        [.obj [("properties", .obj [("name", .str "Vigo (Centro)")])],
         .obj [("properties", .obj [("name", .str "Vigo")])]] =
      .ok
        (match ([( .obj [("properties", .obj [("name", .str "Vigo (Centro)")])] : JVal),
                 .obj [("properties", .obj [("name", .str "Vigo")])]].zip
                  ["Vigo (Centro)", "Vigo"]).find?
            (fun p => normalize_query p.2 == normalize_query "vigo") with
         | some p => some p.1
         | none => ([( .obj [("properties", .obj [("name", .str "Vigo (Centro)")])] : JVal),
                 .obj [("properties", .obj [("name", .str "Vigo")])]]).head?) :=
  pick_best_feature_spec.1 "vigo"
    [.obj [("properties", .obj [("name", .str "Vigo (Centro)")])],
     .obj [("properties", .obj [("name", .str "Vigo")])]]
    ["Vigo (Centro)", "Vigo"] rfl

/-- A cache entry whose id is truthy is never re-resolved: no call is made
for any query normalizing to its key, the entry survives unchanged, and no
write touches its key. -/
theorem resolveLoop_cached (fp : String → Except String JVal) (k : String)
    (e i : JVal) (hid : jGet e "id" = .ok i) (htr : jTruthy i = true) :
    ∀ (queries : List String) (out : List (String × JVal)),
      jLookup out k = some e →
      (∀ q ∈ (resolveLoop fp out queries).calls, normalize_query q ≠ k) ∧
      jLookup (resolveLoop fp out queries).out k = some e ∧
      (∀ w ∈ (resolveLoop fp out queries).writes, w.1 ≠ k)
  | [], out => by
    intro hk
    exact ⟨by simp [resolveLoop], hk, by simp [resolveLoop]⟩
  | q :: rest, out => by
    intro hk
    cases hc : cachedIdTruthy out (normalize_query q) with
    | error m =>
      have hrun : resolveLoop fp out (q :: rest) = ⟨out, [], [], false⟩ := by
        simp only [resolveLoop, hc]
      rw [hrun]
      exact ⟨by simp, hk, by simp⟩
    | ok b =>
      cases b with
      | true =>
        have hrun : resolveLoop fp out (q :: rest) = resolveLoop fp out rest := by
          simp only [resolveLoop, hc]
        rw [hrun]
        exact resolveLoop_cached fp k e i hid htr rest out hk
      | false =>
        have hne : normalize_query q ≠ k := by
          intro he
          rw [he] at hc
          unfold cachedIdTruthy at hc
          simp only [hk] at hc
          rw [hid] at hc
          simp only [exceptBind_ok, exceptPure, Except.ok.injEq] at hc
          rw [htr] at hc
          exact Bool.true_eq_false.mp hc
        cases hro : resolveOne fp q with
        | error m =>
          have hrun : resolveLoop fp out (q :: rest) = ⟨out, [q], [], false⟩ := by
            simp only [resolveLoop, hc, hro]
          rw [hrun]
          refine ⟨?_, hk, by simp⟩
          intro q2 hq2
          simp only [List.mem_singleton] at hq2
          subst hq2
          exact hne
        | ok entry =>
          have hIH := resolveLoop_cached fp k e i hid htr rest
            (dictSet out (normalize_query q) entry)
            (by rw [jLookup_dictSet_ne _ _ _ _ (Ne.symm hne)]; exact hk)
          have hrun : resolveLoop fp out (q :: rest) =
              ⟨(resolveLoop fp (dictSet out (normalize_query q) entry) rest).out,
               q :: (resolveLoop fp
                  (dictSet out (normalize_query q) entry) rest).calls,
               (normalize_query q, q, entry) :: (resolveLoop fp
                  (dictSet out (normalize_query q) entry) rest).writes,
               (resolveLoop fp
                  (dictSet out (normalize_query q) entry) rest).completed⟩ := by
            simp only [resolveLoop, hc, hro]
          rw [hrun]
          refine ⟨?_, hIH.2.1, ?_⟩
          · intro q2 hq2
            rcases List.mem_cons.mp hq2 with h1 | h1
            · subst h1
              exact hne
            · exact hIH.1 q2 h1
          · intro w hw
            rcases List.mem_cons.mp hw with h1 | h1
            · subst h1
              exact hne
            · exact hIH.2.2 w h1

/-- Every entry the resolver writes comes from `resolveOne` on one of the
input queries. -/
theorem resolveLoop_writes (fp : String → Except String JVal) :
    ∀ (queries : List String) (out : List (String × JVal)),
      ∀ w ∈ (resolveLoop fp out queries).writes,
        w.2.1 ∈ queries ∧ resolveOne fp w.2.1 = .ok w.2.2
  | [], out => by
    intro w hw
    simp [resolveLoop] at hw
  | q :: rest, out => by
    intro w hw
    cases hc : cachedIdTruthy out (normalize_query q) with
    | error m =>
      have hrun : resolveLoop fp out (q :: rest) = ⟨out, [], [], false⟩ := by
        simp only [resolveLoop, hc]
      rw [hrun] at hw
      simp at hw
    | ok b =>
      cases b with
      | true =>
        have hrun : resolveLoop fp out (q :: rest) =
            resolveLoop fp out rest := by
          simp only [resolveLoop, hc]
        rw [hrun] at hw
        obtain ⟨h1, h2⟩ := resolveLoop_writes fp rest out w hw
        exact ⟨List.mem_cons_of_mem q h1, h2⟩
      | false =>
        cases hro : resolveOne fp q with
        | error m =>
          have hrun : resolveLoop fp out (q :: rest) =
              ⟨out, [q], [], false⟩ := by
            simp only [resolveLoop, hc, hro]
          rw [hrun] at hw
          simp at hw
        | ok entry =>
          have hrun : resolveLoop fp out (q :: rest) =
              ⟨(resolveLoop fp (dictSet out (normalize_query q) entry) rest).out,
               q :: (resolveLoop fp
                  (dictSet out (normalize_query q) entry) rest).calls,
               (normalize_query q, q, entry) :: (resolveLoop fp
                  (dictSet out (normalize_query q) entry) rest).writes,
               (resolveLoop fp
                  (dictSet out (normalize_query q) entry) rest).completed⟩ := by
            simp only [resolveLoop, hc, hro]
          rw [hrun] at hw
          rcases List.mem_cons.mp hw with h1 | h1
          · subst h1
            exact ⟨List.mem_cons_self q rest, hro⟩
          · obtain ⟨h2, h3⟩ := resolveLoop_writes fp rest
              (dictSet out (normalize_query q) entry) w h1
            exact ⟨List.mem_cons_of_mem q h2, h3⟩

/-- An entry written with a null id can only come from the unresolved
branch of `if not best:` — the place search selected no feature at all, or
selected a falsy one. -/
theorem resolveOne_id_null (fp : String → Except String JVal) (q : String)
    (entry : JVal) (h : resolveOne fp q = .ok entry)
    (kvs : List (String × JVal)) (he : entry = .obj kvs)
    (hnull : jLookup kvs "id" = some .null) :
    fetchedBest fp q = .ok none ∨
      ∃ bf, fetchedBest fp q = .ok (some bf) ∧ jTruthy bf = false := by
  unfold resolveOne at h
  cases hfb : fetchedBest fp q with
  | error m => rw [hfb] at h; simp at h
  | ok best =>
    rw [hfb] at h
    cases best with
    | none => exact Or.inl rfl
    | some bf =>
      simp only [exceptBind_ok] at h
      by_cases hbf : jTruthy bf
      case neg =>
        exact Or.inr ⟨bf, rfl, by simpa using hbf⟩
      rw [if_neg (by simpa using hbf)] at h
      exfalso
      obtain ⟨props, _, h2⟩ := exceptBind_ok_inv h
      obtain ⟨pidRaw, _, h3⟩ := exceptBind_ok_inv h2
      obtain ⟨pid, _, h4⟩ := exceptBind_ok_inv h3
      obtain ⟨nm, _, h5⟩ := exceptBind_ok_inv h4
      obtain ⟨mu, _, h6⟩ := exceptBind_ok_inv h5
      obtain ⟨pv, _, h7⟩ := exceptBind_ok_inv h6
      obtain ⟨ty, _, h8⟩ := exceptBind_ok_inv h7
      simp only [exceptPure, Except.ok.injEq] at h8
      rw [← h8] at he
      rw [show kvs = [("query", JVal.str q), ("id", .str (pyStrip pid)),
        ("name", nm), ("municipality", mu), ("province", pv),
        ("type", ty)] from JVal.obj.inj he.symm] at hnull
      simp [jLookup, List.find?] at hnull

/-- C8 (amended): a cache entry with a truthy id — non-null and non-empty,
which is what the code's `out[key].get(\"id\")` test requires — is never
re-resolved: no place-search call is made for any query normalizing to its
key, the entry is returned (and persisted) unchanged, and no write touches
its key; moreover any entry the resolver writes with a null id records a
failed resolution: the place search selected no feature, or the selected
fallback feature was falsy (as the code's `if not best:` test requires). -/
theorem resolve_place_ids_cached (fp : String → Except String JVal)
    (cache : List (String × JVal)) (queries : List String) (k : String)
    (e i : JVal) (hk : jLookup cache k = some e)
    (hid : jGet e "id" = .ok i) (htr : jTruthy i = true) :
    (∀ q ∈ (resolve_place_ids fp cache queries).calls,
      normalize_query q ≠ k) ∧
    jLookup (resolve_place_ids fp cache queries).out k = some e ∧
    (∀ w ∈ (resolve_place_ids fp cache queries).writes, w.1 ≠ k) ∧
    (∀ w ∈ (resolve_place_ids fp cache queries).writes,
      ∀ kvs, w.2.2 = .obj kvs → jLookup kvs "id" = some .null →
        fetchedBest fp w.2.1 = .ok none ∨
          ∃ bf, fetchedBest fp w.2.1 = .ok (some bf) ∧
            jTruthy bf = false) := by
  have h1 := resolveLoop_cached fp k e i hid htr queries cache hk
  refine ⟨h1.1, h1.2.1, h1.2.2, ?_⟩
  intro w hw kvs he hnull
  exact resolveOne_id_null fp w.2.1 w.2.2
    (resolveLoop_writes fp queries cache w hw).2 kvs he hnull

def c8fp : String → Except String JVal :=
  fun _ => .ok (.obj [("features", .arr [])])

/-- A place-search collaborator returning one feature that is the empty
object — nonempty results, and `pick_best_feature` selects the feature. -/
def c8fpEmptyFeature : String → Except String JVal :=
  fun _ => .ok (.obj [("features", .arr [.obj []])])

def c8cache : List (String × JVal) :=
  [("vigo", .obj [("id", .str ""), ("query", .str "vigo")])]

/-- Counterexample for C8 as stated, on both halves.  First: a cached entry
whose id is the empty string is non-null, yet the resolver issues a
place-search network call for its query and overwrites the entry —
`out[key].get("id")` tests Python truthiness, not non-nullness.  Second: a
null-id entry is not written only when no feature is found — with a
nonempty feature collection whose selected feature is the falsy empty
object, `if not best:` still writes `{"id": None, "query": q}` even though
`pick_best_feature` found and selected a feature. -/
theorem resolve_empty_id_string_recalled :
    (jLookup c8cache "vigo" =
      some (.obj [("id", .str ""), ("query", .str "vigo")]) ∧
    (JVal.str "" ≠ JVal.null) ∧
    (resolve_place_ids c8fp c8cache ["vigo"]).calls = ["vigo"] ∧
    jLookup (resolve_place_ids c8fp c8cache ["vigo"]).out "vigo" =
      some (.obj [("id", .null), ("query", .str "vigo")])) ∧
    (fetchedBest c8fpEmptyFeature "vigo" = .ok (some (.obj [])) ∧
    (resolve_place_ids c8fpEmptyFeature [] ["vigo"]).writes =
      [("vigo", "vigo", .obj [("id", .null), ("query", .str "vigo")])]) :=
  ⟨⟨rfl, by decide, rfl, rfl⟩, ⟨rfl, rfl⟩⟩

/-- Witness for C8: a cache entry with id "id123" short-circuits the
resolver on query "vigo". -/
theorem resolve_place_ids_cached_witness :
    (∀ q ∈ (resolve_place_ids c8fp
        [("vigo", .obj [("id", .str "id123"), ("query", .str "vigo")])]
        ["vigo"]).calls, normalize_query q ≠ "vigo") ∧
    jLookup (resolve_place_ids c8fp
        [("vigo", .obj [("id", .str "id123"), ("query", .str "vigo")])]
        ["vigo"]).out "vigo" =
      some (.obj [("id", .str "id123"), ("query", .str "vigo")]) ∧
    (∀ w ∈ (resolve_place_ids c8fp
        [("vigo", .obj [("id", .str "id123"), ("query", .str "vigo")])]
        ["vigo"]).writes, w.1 ≠ "vigo") ∧
    (∀ w ∈ (resolve_place_ids c8fp
        [("vigo", .obj [("id", .str "id123"), ("query", .str "vigo")])]
        ["vigo"]).writes,
      ∀ kvs, w.2.2 = .obj kvs → jLookup kvs "id" = some .null →
        fetchedBest c8fp w.2.1 = .ok none ∨
          ∃ bf, fetchedBest c8fp w.2.1 = .ok (some bf) ∧
            jTruthy bf = false) :=
  resolve_place_ids_cached c8fp
    [("vigo", .obj [("id", .str "id123"), ("query", .str "vigo")])]
    ["vigo"] "vigo" (.obj [("id", .str "id123"), ("query", .str "vigo")])
    (.str "id123") rfl rfl rfl

/-! Claim C3: the canonical digest. -/

mutual

/-- Two JSON documents differ only in the ordering of keys within objects:
same keys, equivalent values, same array element order. -/
inductive KeyEquiv : JVal → JVal → Prop where
  | null : KeyEquiv .null .null
  | bool (b : Bool) : KeyEquiv (.bool b) (.bool b)
  | num (q : ℚ) : KeyEquiv (.num q) (.num q)
  | str (s : String) : KeyEquiv (.str s) (.str s)
  | arr {xs ys : List JVal} : KeyEquivList xs ys →
      KeyEquiv (.arr xs) (.arr ys)
  | obj {kvs l kvs2 : List (String × JVal)} : KeyEquivPairs kvs l →
      l.Perm kvs2 → KeyEquiv (.obj kvs) (.obj kvs2)

/-- Pointwise `KeyEquiv` on array elements. -/
inductive KeyEquivList : List JVal → List JVal → Prop where
  | nil : KeyEquivList [] []
  | cons {x y : JVal} {xs ys : List JVal} : KeyEquiv x y →
      KeyEquivList xs ys → KeyEquivList (x :: xs) (y :: ys)

/-- Pointwise `KeyEquiv` on object entries (same keys in place). -/
inductive KeyEquivPairs :
    List (String × JVal) → List (String × JVal) → Prop where
  | nil : KeyEquivPairs [] []
  | cons {k : String} {x y : JVal} {kvs l : List (String × JVal)} :
      KeyEquiv x y → KeyEquivPairs kvs l →
      KeyEquivPairs ((k, x) :: kvs) ((k, y) :: l)

end

mutual

/-- Well-formed JSON value: every object has distinct keys, as any document
decoded from Python's `json` module does. -/
inductive WF : JVal → Prop where
  | null : WF .null
  | bool (b : Bool) : WF (.bool b)
  | num (q : ℚ) : WF (.num q)
  | str (s : String) : WF (.str s)
  | arr {xs : List JVal} : WFList xs → WF (.arr xs)
  | obj {kvs : List (String × JVal)} : (kvs.map Prod.fst).Nodup →
      WFPairs kvs → WF (.obj kvs)

/-- Well-formedness of array elements. -/
inductive WFList : List JVal → Prop where
  | nil : WFList []
  | cons {x : JVal} {xs : List JVal} : WF x → WFList xs → WFList (x :: xs)

/-- Well-formedness of object entry values. -/
inductive WFPairs : List (String × JVal) → Prop where
  | nil : WFPairs []
  | cons {kv : String × JVal} {kvs : List (String × JVal)} : WF kv.2 →
      WFPairs kvs → WFPairs (kv :: kvs)

end

/-- Rendering each entry commutes with `List.map`. -/
theorem serializePairs_eq_map : ∀ kvs : List (String × JVal),
    serializePairs kvs = kvs.map (fun kv => (kv.1, serialize kv.2))
  | [] => rfl
  | kv :: kvs => by
    rw [serializePairs, serializePairs_eq_map kvs, List.map_cons]

/-- Equivalent entry lists have the same keys. -/
theorem keyEquivPairs_keys : ∀ (kvs l : List (String × JVal)),
    KeyEquivPairs kvs l → kvs.map Prod.fst = l.map Prod.fst
  | [], _, h => by cases h; rfl
  | _ :: kvs, _, h => by
    cases h with
    | cons hx hrest =>
      simp only [List.map_cons]
      rw [keyEquivPairs_keys kvs _ hrest]

/-- Sorting by key maps two permuted entry lists with distinct keys to the
same list (the sort is by the keys alone, and distinct keys leave no
ties). -/
theorem sortPairs_eq_of_perm_nodup (l1 l2 : List (String × String))
    (hperm : l1.Perm l2) (hnd : (l1.map Prod.fst).Nodup) :
    sortPairs l1 = sortPairs l2 := by
  haveI htot : IsTotal (String × String)
      (fun a b => a.1 ≤ b.1) := ⟨fun a b => le_total a.1 b.1⟩
  haveI htr : IsTrans (String × String)
      (fun a b => a.1 ≤ b.1) := ⟨fun a b c h1 h2 => le_trans h1 h2⟩
  haveI hanti : IsAntisymm (String × String)
      (fun a b => a.1 < b.1) := ⟨fun a b h1 h2 => absurd h2 (lt_asymm h1)⟩
  have hp : (sortPairs l1).Perm (sortPairs l2) :=
    ((List.perm_insertionSort _ l1).trans hperm).trans
      (List.perm_insertionSort _ l2).symm
  have hs1le : List.Sorted (fun a b : String × String => a.1 ≤ b.1)
      (sortPairs l1) := List.sorted_insertionSort _ l1
  have hs2le : List.Sorted (fun a b : String × String => a.1 ≤ b.1)
      (sortPairs l2) := List.sorted_insertionSort _ l2
  have hnd1 : ((sortPairs l1).map Prod.fst).Nodup :=
    ((List.perm_insertionSort _ l1).map Prod.fst).nodup_iff.mpr hnd
  have hnd2 : ((sortPairs l2).map Prod.fst).Nodup :=
    ((List.perm_insertionSort _ l2).map Prod.fst).nodup_iff.mpr
      ((hperm.map Prod.fst).nodup_iff.mp hnd)
  have hlt : ∀ (l : List (String × String)),
      List.Sorted (fun a b : String × String => a.1 ≤ b.1) l →
      (l.map Prod.fst).Nodup →
      List.Sorted (fun a b : String × String => a.1 < b.1) l := by
    intro l hle hnd0
    have hne : l.Pairwise (fun a b : String × String => a.1 ≠ b.1) :=
      (List.pairwise_map).mp hnd0
    exact (hle.and hne).imp (fun h => lt_of_le_of_ne h.1 h.2)
  exact List.eq_of_perm_of_sorted hp (hlt _ hs1le hnd1) (hlt _ hs2le hnd2)

/-- `serialize` maps key-reordered (well-formed) documents to the same
canonical string: values serialize pointwise equal, and sorting the
distinct keys erases the order difference. -/
theorem serialize_keyEquiv_bounded :
    ∀ (n : ℕ) (a b : JVal), sizeOf a < n → WF a → KeyEquiv a b →
      serialize a = serialize b
  | 0, _, _ => fun h _ _ => absurd h (Nat.not_lt_zero _)
  | n + 1, a, b => fun hsz hwf heq => by
    have go : ∀ (xs ys : List JVal), KeyEquivList xs ys →
        sizeOf xs < n + 1 → WFList xs →
        serializeList xs = serializeList ys := by
      intro xs
      induction xs with
      | nil =>
        intro ys h _ _
        cases h
        rfl
      | cons x xs ih =>
        intro ys h hb hw
        cases h with
        | cons hxy hrest =>
          cases hw with
          | cons hwx hwxs =>
            have hbx : sizeOf x < n := by
              simp only [List.cons.sizeOf_spec] at hb
              omega
            have hbxs : sizeOf xs < n + 1 := by
              simp only [List.cons.sizeOf_spec] at hb
              omega
            rw [serializeList, serializeList,
              serialize_keyEquiv_bounded n x _ hbx hwx hxy,
              ih _ hrest hbxs hwxs]
    have goP : ∀ (kvs : List (String × JVal)) (l : List (String × JVal)),
        KeyEquivPairs kvs l → sizeOf kvs < n + 1 → WFPairs kvs →
        serializePairs kvs = serializePairs l := by
      intro kvs
      induction kvs with
      | nil =>
        intro l h _ _
        cases h
        rfl
      | cons kv kvs ih =>
        intro l h hb hw
        obtain ⟨k, x⟩ := kv
        cases h with
        | cons hxy hrest =>
          cases hw with
          | cons hwx hwxs =>
            have hbx : sizeOf x < n := by
              simp only [List.cons.sizeOf_spec, Prod.mk.sizeOf_spec] at hb
              omega
            have hbxs : sizeOf kvs < n + 1 := by
              simp only [List.cons.sizeOf_spec] at hb
              omega
            simp only [serializePairs]
            rw [show serialize (k, x).2 = serialize x from rfl,
              serialize_keyEquiv_bounded n x _ hbx hwx hxy,
              ih _ hrest hbxs hwxs]
    cases heq with
    | null => rfl
    | bool b => rfl
    | num q => rfl
    | str s => rfl
    | arr hl =>
      rename_i xs ys
      cases hwf with
      | arr hwl =>
        have hb : sizeOf xs < n + 1 := by
          simp only [JVal.arr.sizeOf_spec] at hsz
          omega
        have h := go _ _ hl hb hwl
        simp only [serialize]
        rw [h]
    | obj hp hperm =>
      rename_i kvs l kvs2
      cases hwf with
      | obj hnd hwp =>
        have hb : sizeOf kvs < n + 1 := by
          simp only [JVal.obj.sizeOf_spec] at hsz
          omega
        have h1 := goP _ _ hp hb hwp
        have h2 : (serializePairs l).Perm (serializePairs kvs2) := by
          rw [serializePairs_eq_map, serializePairs_eq_map]
          exact hperm.map _
        have hkeys : ∀ (zs : List (String × JVal)),
            (serializePairs zs).map Prod.fst = zs.map Prod.fst := by
          intro zs
          rw [serializePairs_eq_map, List.map_map]
          rfl
        have hnd2 : ((serializePairs l).map Prod.fst).Nodup := by
          rw [hkeys, ← keyEquivPairs_keys _ _ hp]
          exact hnd
        have h3 := sortPairs_eq_of_perm_nodup _ _ h2 hnd2
        simp only [serialize]
        rw [h1, h3]

theorem hexWord_length (w : ℕ) : (hexWord w).length = 8 := by
  simp [hexWord, String.length]

theorem stable_hash_length (v : JVal) : (stable_hash v).length = 64 := by
  unfold stable_hash sha256hex
  simp [String.length_append, hexWord_length]

set_option maxRecDepth 100000 in
/-- C3: `stable_hash` is invariant under reordering of keys within objects
(for well-formed documents — distinct keys per object, as Python dicts
guarantee), always returns a 64-character string, and reordering elements
within an array can change the digest, witnessed by swapping a two-element
string array. -/
theorem stable_hash_spec :
    (∀ a b : JVal, WF a → KeyEquiv a b → stable_hash a = stable_hash b) ∧
    (∀ v : JVal, (stable_hash v).length = 64) ∧
    stable_hash (.arr [.str "a", .str "b"]) ≠
      stable_hash (.arr [.str "b", .str "a"]) := by
  refine ⟨?_, stable_hash_length, ?_⟩
  · intro a b hwf heq
    unfold stable_hash
    rw [serialize_keyEquiv_bounded (sizeOf a + 1) a b (Nat.lt_succ_self _)
      hwf heq]
  · decide

/-- Witness for C3: two concrete objects differing only in key order share
their digest. -/
theorem stable_hash_spec_witness :
    stable_hash (.obj [("a", .num 1), ("b", .str "x")]) =
      stable_hash (.obj [("b", .str "x"), ("a", .num 1)]) :=
  stable_hash_spec.1 (.obj [("a", .num 1), ("b", .str "x")])
    (.obj [("b", .str "x"), ("a", .num 1)])
    (WF.obj (by decide)
      (WFPairs.cons (WF.num 1) (WFPairs.cons (WF.str "x") WFPairs.nil)))
    (KeyEquiv.obj
      (KeyEquivPairs.cons (KeyEquiv.num 1)
        (KeyEquivPairs.cons (KeyEquiv.str "x") KeyEquivPairs.nil))
      (List.Perm.swap ("b", JVal.str "x") ("a", JVal.num 1) []))
